import Mathlib

/-!
A shallow embedding of the idempotent mutation coordination layer and the
selector-driven block range editor of the `notion-cli` repository
(`src/idempotency/store.ts`, the mutation coordinator module, and the block
repository module).

Modelling conventions:
* JS objects holding JSON data are modelled by the inductive `Json`;
  `JSON.stringify` is modelled by `stringifyJson` (deterministic, key order
  preserving, as in V8).  A store entry's `responseJson` string field always
  holds `stringifyJson` of some value, so the embedding stores the value and
  models the source's string comparisons through `stringifyJson`.
  `JSON.parse (JSON.stringify v) = v` for the values produced here, so replay
  returns the stored value directly; the corrupt-store parse branch of the
  source is unreachable in this model.
* `Date.now()` is an explicit `now : Nat` argument (milliseconds).
* The JS object backing the store file is an association list with unique
  keys; operations thread the updated list explicitly.
-/

namespace NotionCli

/-- JSON values as manipulated by the CLI (object fields keep insertion
order, as JS objects do). -/
inductive Json where
  | null : Json
  | bool (b : Bool) : Json
  | num (n : Int) : Json
  | str (s : String) : Json
  | arr (elems : List Json) : Json
  | obj (fields : List (String × Json)) : Json

/-- JS string escaping inside `JSON.stringify` (quotes and backslashes;
other characters pass through, which is enough for the values used here). -/
def escapeJsonChar (c : Char) : String :=
  if c = '"' then "\\\"" else if c = '\\' then "\\\\" else String.singleton c

def escapeJsonString (s : String) : String :=
  String.join (s.toList.map escapeJsonChar)

mutual

/-- Model of `JSON.stringify` (object key order preserved, no whitespace). -/
def stringifyJson : Json → String
  | .null => "null"
  | .bool b => if b then "true" else "false"
  | .num n => toString n
  | .str s => "\"" ++ escapeJsonString s ++ "\""
  | .arr xs => "[" ++ stringifyArr xs ++ "]"
  | .obj fs => "\x7b" ++ stringifyObj fs ++ "\x7d"

def stringifyArr : List Json → String
  | [] => ""
  | [x] => stringifyJson x
  | x :: y :: rest => stringifyJson x ++ "," ++ stringifyArr (y :: rest)

def stringifyObj : List (String × Json) → String
  | [] => ""
  | [(k, v)] => "\"" ++ escapeJsonString k ++ "\":" ++ stringifyJson v
  | (k, v) :: f :: rest =>
      "\"" ++ escapeJsonString k ++ "\":" ++ stringifyJson v ++ "," ++ stringifyObj (f :: rest)

end

/-- Lexicographic order on character lists by code point. -/
def charListLt : List Char → List Char → Bool
  | [], [] => false
  | [], _ :: _ => true
  | _ :: _, [] => false
  | a :: as, b :: bs =>
    if a.toNat < b.toNat then true
    else if b.toNat < a.toNat then false
    else charListLt as bs

/-- Lexicographic string order used to sort object keys. -/
def strLtB (a b : String) : Bool := charListLt a.toList b.toList

/-- Insert a field into a key-sorted field list (ordering on the key). -/
def insertFieldSorted (f : String × Json) : List (String × Json) → List (String × Json)
  | [] => [f]
  | g :: rest => if strLtB f.1 g.1 then f :: g :: rest else g :: insertFieldSorted f rest

def sortFieldsByKey : List (String × Json) → List (String × Json)
  | [] => []
  | f :: rest => insertFieldSorted f (sortFieldsByKey rest)

mutual

/-- Modelled from the spec: `hashObject` lives in `src/utils/json.ts`, which is
not part of the provided sources.  The spec says canonicalization "sorts object
keys recursively before hashing so that field order never affects the key".
`canonicalJson` is that recursive key sort. -/
def canonicalJson : Json → Json
  | .null => .null
  | .bool b => .bool b
  | .num n => .num n
  | .str s => .str s
  | .arr xs => .arr (canonicalArr xs)
  | .obj fs => .obj (sortFieldsByKey (canonicalObj fs))

def canonicalArr : List Json → List Json
  | [] => []
  | x :: rest => canonicalJson x :: canonicalArr rest

def canonicalObj : List (String × Json) → List (String × Json)
  | [] => []
  | (k, v) :: rest => (k, canonicalJson v) :: canonicalObj rest

end

/-- Modelled from the spec: `hashObject` (missing `src/utils/json.ts`) hashes
the canonicalized JSON serialization of its argument; the hash is modelled by
the canonical serialization itself (deterministic, and injective where the
real hash is collision-free). -/
def hashObject (v : Json) : String :=
  stringifyJson (canonicalJson v)

/-- Error taxonomy of the CLI.  Modelled from the spec (§7) and the
constructor call sites in the provided sources; `src/errors/cli-error.ts`
itself is not among the provided files. -/
inductive ErrorCode where
  | invalid_input
  | not_found
  | conflict
  | retryable_upstream
  | internal_error
  | idempotency_key_conflict
deriving Repr, DecidableEq

/-- Modelled from the spec and call sites: `new CliError(code, message,
{ retryable?, details? })`. -/
structure CliError where
  code : ErrorCode
  message : String
  retryable : Bool
  details : Option Json

/-! ## Idempotency store (`src/idempotency/store.ts`) -/

def PRUNE_TTL_MS : Nat := 180000

/-- `JSON.stringify({ __notion_lite_pending: true })`, the PENDING sentinel
value; `PENDING_RESPONSE_JSON` is its serialized form. -/
def pendingResponse : Json := .obj [("__notion_lite_pending", .bool true)]

def PENDING_RESPONSE_JSON : String := stringifyJson pendingResponse

/-- `${idempotencyKey}\0${commandName}` -/
def compositeKey (idempotencyKey commandName : String) : String :=
  idempotencyKey ++ "\x00" ++ commandName

structure StoreEntry where
  inputHash : String
  /-- the source stores `responseJson = JSON.stringify response`; the model
  stores the value and compares serializations where the source compares
  strings. -/
  response : Json
  createdAt : Nat

def StoreEntry.isPending (e : StoreEntry) : Bool :=
  stringifyJson e.response == PENDING_RESPONSE_JSON

/-- The JSON object persisted in the store file. -/
abbrev StoreData := List (String × StoreEntry)

/-- Update/insert a key of the backing object (JS `data[key] = entry`). -/
def setEntry (data : StoreData) (key : String) (e : StoreEntry) : StoreData :=
  (key, e) :: data.filter (fun kv => kv.1 != key)

/-- JS `delete data[key]`. -/
def delEntry (data : StoreData) (key : String) : StoreData :=
  data.filter (fun kv => kv.1 != key)

/-- The TTL prune pass of `loadDataUnlocked`: drop every entry with
`now - createdAt > PRUNE_TTL_MS` (truncated `Nat` subtraction agrees with the
JS number comparison for all `createdAt`, since a negative age is never
greater than the TTL). -/
def pruneData (now : Nat) (data : StoreData) : StoreData :=
  data.filter (fun kv => decide (now - kv.2.createdAt ≤ PRUNE_TTL_MS))

inductive IdempotencyLookup where
  | miss
  | pending
  | replay (response : Json)
  | conflict (storedHash : String)

inductive IdempotencyReservation where
  | execute
  | pending
  | replay (response : Json)
  | conflict (storedHash : String)

namespace IdempotencyStore

/-- `IdempotencyStore.lookup` (each operation loads the file, prunes expired
entries, and works on the pruned map; the returned `StoreData` is the state
left on disk). -/
def lookup (data : StoreData) (now : Nat) (idempotencyKey commandName inputHash : String) :
    IdempotencyLookup × StoreData :=
  let data := pruneData now data
  match List.lookup (compositeKey idempotencyKey commandName) data with
  | none => (.miss, data)
  | some e =>
    if e.inputHash ≠ inputHash then (.conflict e.inputHash, data)
    else if e.isPending then (.pending, data)
    else (.replay e.response, data)

/-- `IdempotencyStore.reserve`. -/
def reserve (data : StoreData) (now : Nat) (idempotencyKey commandName inputHash : String) :
    IdempotencyReservation × StoreData :=
  let data := pruneData now data
  let key := compositeKey idempotencyKey commandName
  match List.lookup key data with
  | none => (.execute, setEntry data key ⟨inputHash, pendingResponse, now⟩)
  | some e =>
    if e.inputHash ≠ inputHash then (.conflict e.inputHash, data)
    else if e.isPending then (.pending, data)
    else (.replay e.response, data)

/-- `IdempotencyStore.complete`: creates a fresh terminal entry when the key
is absent, errors on an input-hash mismatch, otherwise overwrites the entry
with the outcome and a refreshed timestamp. -/
def complete (data : StoreData) (now : Nat)
    (idempotencyKey commandName inputHash : String) (response : Json) :
    Except CliError Unit × StoreData :=
  let data := pruneData now data
  let key := compositeKey idempotencyKey commandName
  match List.lookup key data with
  | none => (.ok (), setEntry data key ⟨inputHash, response, now⟩)
  | some e =>
    if e.inputHash ≠ inputHash then
      (.error ⟨.internal_error,
        "Failed to finalize idempotency record for mutation replay.", false, none⟩, data)
    else (.ok (), setEntry data key ⟨inputHash, response, now⟩)

/-- `IdempotencyStore.release`: delete the entry only while it is still
PENDING and hash-matched. -/
def release (data : StoreData) (now : Nat)
    (idempotencyKey commandName inputHash : String) : StoreData :=
  let data := pruneData now data
  let key := compositeKey idempotencyKey commandName
  match List.lookup key data with
  | none => data
  | some e =>
    if e.inputHash == inputHash && e.isPending then delEntry data key else data

end IdempotencyStore

/-- `buildInternalIdempotencyKey`: `commandName:bucket:digest` with a
2-minute wall-clock bucket. -/
def buildInternalIdempotencyKey (now : Nat) (commandName : String) (requestShape : Json) :
    String :=
  let bucket := now / 120000
  let digest := hashObject (.obj [("commandName", .str commandName),
    ("requestShape", requestShape)])
  commandName ++ ":" ++ toString bucket ++ ":" ++ digest

/-! ## Mutation coordinator (`executeMutationWithIdempotency`)

One coordinator invocation is modelled as a pure function of the store state,
the wall clock (frozen at `now` for the duration of the call: the model
covers a single invocation with no interleaved writers, which collapses the
PENDING polling loop to its deadline outcome), and the behaviors of the
`run`/`recover` callbacks. -/

/-- A JS error as classified by `getStatus`/`getCode`/`instanceof CliError`:
either a `CliError` (whose `code` field is its code string) or a foreign
error with optional numeric `status` and string `code` fields. -/
inductive MutErr where
  | cli (e : CliError)
  | js (status : Option Int) (code : Option String)

def errorCodeString : ErrorCode → String
  | .invalid_input => "invalid_input"
  | .not_found => "not_found"
  | .conflict => "conflict"
  | .retryable_upstream => "retryable_upstream"
  | .internal_error => "internal_error"
  | .idempotency_key_conflict => "idempotency_key_conflict"

/-- `getStatus(error)`: a `CliError` carries no numeric `status` field. -/
def getStatus : MutErr → Option Int
  | .cli _ => none
  | .js status _ => status

/-- `getCode(error)`: a `CliError`'s `code` field is its code string. -/
def getCode : MutErr → Option String
  | .cli e => some (errorCodeString e.code)
  | .js _ code => code

/-- `isAmbiguousMutationError` without an override. -/
def isAmbiguousMutationErrorDefault (e : MutErr) : Bool :=
  if (match e with
      | .cli ce => ce.code == ErrorCode.retryable_upstream
      | .js _ _ => false) then
    true
  else
    match getStatus e with
    | some status =>
      if status == 429 || status ≥ 500 then true
      else getCode e == some "internal_error"
    | none => getCode e == some "internal_error"

/-- `isAmbiguousMutationError(error, override?)`. -/
def isAmbiguousMutationError (e : MutErr) (override : Option (MutErr → Bool)) : Bool :=
  match override with
  | some f => f e
  | none => isAmbiguousMutationErrorDefault e

/-- Behavior of the `run` callback of one invocation. -/
inductive RunBehavior where
  | ok (value : Json)
  | throws (e : MutErr)

/-- Behavior of the `recover` callback of one invocation. -/
inductive RecoverBehavior where
  | value (v : Json)
  | nullResult
  | throws (e : MutErr)

structure MutationArgs where
  commandName : String
  requestShape : Json
  run : RunBehavior
  recover : Option RecoverBehavior
  isAmbiguousOverride : Option (MutErr → Bool)

/-- Outcome of one coordinator invocation: the value returned or error
thrown, the store state left behind, and how many times `run` was invoked. -/
structure MutationResult where
  result : Except MutErr Json
  store : StoreData
  runCount : Nat

/-- The retryable error raised when an ambiguous failure cannot be recovered
("never guess success or failure when the system cannot tell"). -/
def mutationUnconfirmedError : CliError :=
  ⟨.retryable_upstream,
    "Mutation outcome could not be confirmed. Re-read before retrying.", true, none⟩

/-- The retryable error raised when a PENDING reservation does not resolve
within the polling deadline. -/
def mutationInProgressError : CliError :=
  ⟨.retryable_upstream,
    "A matching mutation is already in progress. Retry this request shortly.", true, none⟩

/-- `executeMutationWithIdempotency` for a single invocation (no interleaved
writers, clock frozen at `now`; the audit log is write-only and swallowed, so
it is not modelled). -/
def executeMutationWithIdempotency (now : Nat) (args : MutationArgs) (store0 : StoreData) :
    MutationResult :=
  let requestHash := hashObject args.requestShape
  let idempotencyKey := buildInternalIdempotencyKey now args.commandName args.requestShape
  match IdempotencyStore.reserve store0 now idempotencyKey args.commandName requestHash with
  | (.conflict storedHash, d1) =>
    ⟨.error (.cli ⟨.idempotency_key_conflict, "Internal idempotency key collision.", false,
      some (.obj [("command", .str args.commandName), ("stored_hash", .str storedHash),
        ("incoming_hash", .str requestHash)])⟩), d1, 0⟩
  | (.pending, d1) =>
    -- With no interleaved writers the entry never leaves PENDING: the poll
    -- loop times out, the re-reserve still reports pending, and the
    -- in-progress error is thrown (ownsReservation is false, no release).
    ⟨.error (.cli mutationInProgressError), d1, 0⟩
  | (.replay response, d1) => ⟨.ok response, d1, 0⟩
  | (.execute, d1) =>
    match args.run with
    | .ok response =>
      -- complete's internal_error (if any) is swallowed
      -- (idempotency_persist_degraded); the call still returns success.
      let d2 := (IdempotencyStore.complete d1 now idempotencyKey args.commandName
        requestHash response).2
      ⟨.ok response, d2, 1⟩
    | .throws e =>
      if isAmbiguousMutationError e args.isAmbiguousOverride then
        match args.recover with
        | some (.value recovered) =>
          let d2 := (IdempotencyStore.complete d1 now idempotencyKey args.commandName
            requestHash recovered).2
          ⟨.ok recovered, d2, 1⟩
        | some .nullResult =>
          ⟨.error (.cli mutationUnconfirmedError),
            IdempotencyStore.release d1 now idempotencyKey args.commandName requestHash, 1⟩
        | some (.throws _) =>
          ⟨.error (.cli mutationUnconfirmedError),
            IdempotencyStore.release d1 now idempotencyKey args.commandName requestHash, 1⟩
        | none =>
          ⟨.error (.cli mutationUnconfirmedError),
            IdempotencyStore.release d1 now idempotencyKey args.commandName requestHash, 1⟩
      else
        -- non-ambiguous failures propagate; the catch-all releases the
        -- owned reservation
        ⟨.error e,
          IdempotencyStore.release d1 now idempotencyKey args.commandName requestHash, 1⟩

/-! ## Block tree flattener and selector resolver (block repository module)

The remote tree is modelled as a function `world : String → List RawBlock`
giving the direct children a `listBlockChildren` pagination pass returns for
a parent id (pagination collapsed).  The recursive walk carries explicit
fuel; `maxBlocks + 1` fuel is always enough because each descent level first
pushes the parent block, so the bounded-scan error fires before the fuel
could run out. -/

/-- The fields of a raw block object that the walk reads.  `id = ""` models a
block whose `id` is not a string (the walk skips it); `text` models
`extractBlockText(block) ?? ""`. -/
structure RawBlock where
  id : String
  type : Option String
  text : String
  has_children : Bool
  last_edited_time : Option String
deriving Repr, DecidableEq

/-- The `FlatBlock` projection produced by the flattener. -/
structure FlatBlock where
  id : String
  parent_id : String
  type : Option String
  text : String
  has_children : Bool
  last_edited_time : Option String
  sibling_index : Nat
  order_index : Nat
deriving Repr, DecidableEq

structure FlatState where
  blocks : List FlatBlock
  siblingsByParent : List (String × List FlatBlock)

/-- `Map.set` on the per-parent sibling index. -/
def setSiblings (m : List (String × List FlatBlock)) (parentId : String)
    (siblings : List FlatBlock) : List (String × List FlatBlock) :=
  (parentId, siblings) :: m.filter (fun kv => kv.1 != parentId)

def scanExceededError (maxBlocks : Nat) : CliError :=
  ⟨.invalid_input,
    "Selection scan exceeded max blocks (" ++ toString maxBlocks ++
      "). Increase scan_max_blocks.", false, none⟩

/-- Artifact of the fueled embedding; unreachable with `maxBlocks + 1` fuel. -/
def fuelExhaustedError : CliError :=
  ⟨.internal_error, "flatten walk fuel exhausted", false, none⟩

/-- The sibling loop of `walk`: enumerate the raw children (the enumeration
index advances even for skipped blocks), skip blocks without a string id,
fail once the accumulated block count reaches `maxBlocks`, and append a
`FlatBlock` per kept child (`sibling_index` = enumeration index,
`order_index` = position in the accumulated list).  Returns the grown
accumulator and the siblings pushed for this parent. -/
def pushSiblings (maxBlocks : Nat) (parentId : String) :
    List RawBlock → Nat → List FlatBlock →
    Except CliError (List FlatBlock × List FlatBlock)
  | [], _, blocks => .ok (blocks, [])
  | raw :: rest, siblingIndex, blocks =>
    if raw.id = "" then pushSiblings maxBlocks parentId rest (siblingIndex + 1) blocks
    else if blocks.length ≥ maxBlocks then .error (scanExceededError maxBlocks)
    else
      let flat : FlatBlock := ⟨raw.id, parentId, raw.type, raw.text, raw.has_children,
        raw.last_edited_time, siblingIndex, blocks.length⟩
      match pushSiblings maxBlocks parentId rest (siblingIndex + 1) (blocks ++ [flat]) with
      | .ok (blocks', siblings) => .ok (blocks', flat :: siblings)
      | .error e => .error e

/-- The descent loop of `walk`: for each pushed sibling with children,
recurse (the recursion itself is supplied as `walk`). -/
def descendWith (walk : String → FlatState → Except CliError FlatState) :
    List FlatBlock → FlatState → Except CliError FlatState
  | [], st => .ok st
  | s :: rest, st =>
    if s.has_children then
      match walk s.id st with
      | .error e => .error e
      | .ok st' => descendWith walk rest st'
    else descendWith walk rest st

/-- One level of `walk(parentId)`: push all direct children, then descend
into each pushed sibling that has children. -/
def walkStep (world : String → List RawBlock) (maxBlocks : Nat)
    (walk : String → FlatState → Except CliError FlatState)
    (parentId : String) (st : FlatState) : Except CliError FlatState :=
  match pushSiblings maxBlocks parentId (world parentId) 0 st.blocks with
  | .error e => .error e
  | .ok (blocks', siblings) =>
    descendWith walk siblings ⟨blocks', setSiblings st.siblingsByParent parentId siblings⟩

/-- The recursive `walk` of `flattenScopeBlocks`, with explicit fuel. -/
def walkChildren (world : String → List RawBlock) (maxBlocks : Nat) :
    Nat → String → FlatState → Except CliError FlatState
  | 0 => fun _ _ => .error fuelExhaustedError
  | fuel + 1 => walkStep world maxBlocks (walkChildren world maxBlocks fuel)

/-- `flattenScopeBlocks(notion, scopeId, maxBlocks)`. -/
def flattenScopeBlocks (world : String → List RawBlock) (scopeId : String) (maxBlocks : Nat) :
    Except CliError FlatState :=
  walkChildren world maxBlocks (maxBlocks + 1) scopeId ⟨[], []⟩

/-- `siblingsFingerprint`: ordered `id:lastEditedTime` pairs joined by `|`. -/
def siblingsFingerprint (siblings : List FlatBlock) : String :=
  String.intercalate "|" (siblings.map fun b => b.id ++ ":" ++ (b.last_edited_time.getD ""))

/-! ### Selectors -/

/-- A selector after `normalizeSelector` (which validated `from` and
`nth ≥ 1`): `where.type`, `where.text_contains`, `where.parent_id`, `from`
(`fromEnd = true` for `"end"`), and `nth`.  A `some ""` predicate value is
falsy in JS and is skipped by `matchesSelector`, exactly as in the source. -/
structure NormSelector where
  whereType : Option String
  whereTextContains : Option String
  whereParentId : Option String
  fromEnd : Bool
  nth : Option Nat

/-- JS truthiness of a `string | undefined` field. -/
def truthyStr : Option String → Bool
  | some s => s ≠ ""
  | none => false

/-- Substring test on character lists (`String.prototype.includes`). -/
def listContainsSub : List Char → List Char → Bool
  | [], needle => needle.isEmpty
  | a :: rest, needle =>
    if needle.isPrefixOf (a :: rest) then true else listContainsSub rest needle

def strIncludes (hay needle : String) : Bool :=
  listContainsSub hay.toList needle.toList

/-- `matchesSelector(block, selector)`. -/
def matchesSelector (block : FlatBlock) (sel : NormSelector) : Bool :=
  (if truthyStr sel.whereType then block.type == sel.whereType else true) &&
  (if truthyStr sel.whereParentId then some block.parent_id == sel.whereParentId else true) &&
  (match sel.whereTextContains with
    | some needle =>
      if needle ≠ "" then strIncludes block.text.toLower needle.toLower else true
    | none => true)

/-- The `nth` index into the match list: `from === "start" ? nth - 1 :
matches.length - nth` (computed over `Int`, as in JS). -/
def nthIndex (sel : NormSelector) (nth : Nat) (matchCount : Nat) : Int :=
  if sel.fromEnd then (matchCount : Int) - (nth : Int) else (nth : Int) - 1

def noMatchError (label : String) : CliError :=
  ⟨.not_found, label ++ " matched no blocks.", false, none⟩

def ambiguousMatchError (label : String) (count : Nat) : CliError :=
  ⟨.conflict, label ++ " matched " ++ toString count ++
    " blocks. Provide nth and/or where.parent_id to disambiguate.", false, none⟩

def nthOutOfRangeError (label : String) (nth len : Nat) : CliError :=
  ⟨.not_found, label ++ " nth=" ++ toString nth ++ " is out of range for " ++
    toString len ++ " matches.", false, none⟩

/-- `resolveSelectorStrict(blocks, selector, label)` (the resolver used by
range replacement): no match and out-of-range `nth` are `not_found`; more
than one match without `nth` is a loud `conflict`. -/
def resolveSelectorStrict (blocks : List FlatBlock) (sel : NormSelector) (label : String) :
    Except CliError (FlatBlock × List FlatBlock) :=
  match blocks.filter (fun b => matchesSelector b sel) with
  | [] => .error (noMatchError label)
  | m :: rest =>
    match sel.nth with
    | none =>
      if (m :: rest).length > 1 then .error (ambiguousMatchError label (m :: rest).length)
      else .ok (m, m :: rest)
    | some nth =>
      let len := (m :: rest).length
      let index := nthIndex sel nth len
      if index < 0 ∨ (len : Int) ≤ index then .error (nthOutOfRangeError label nth len)
      else .ok ((m :: rest).getD index.toNat m, m :: rest)

/-- Result shape of `selectBlocks` (payload projection elided: `selected` and
`matches` carry the `FlatBlock`s the payloads are built from). -/
structure SelectResult where
  match_count : Nat
  ambiguous : Bool
  selected : Option FlatBlock
  /-- the source's `matches` field (`matches` is reserved in Lean) -/
  matchList : List FlatBlock
deriving Repr, DecidableEq

/-- The selection logic of `selectBlocks` applied to a flattened block list
(the ambiguity-tolerant resolver). -/
def selectBlocksOn (blocks : List FlatBlock) (sel : NormSelector) :
    Except CliError SelectResult :=
  match blocks.filter (fun b => matchesSelector b sel) with
  | [] => .error (noMatchError "selector-json")
  | m :: rest =>
    match sel.nth with
    | some nth =>
      let len := (m :: rest).length
      let index := nthIndex sel nth len
      if index < 0 ∨ (len : Int) ≤ index then
        .error (nthOutOfRangeError "selector-json" nth len)
      else .ok ⟨len, false, some ((m :: rest).getD index.toNat m), m :: rest⟩
    | none =>
      if rest.isEmpty then .ok ⟨1, false, some m, m :: rest⟩
      else .ok ⟨(m :: rest).length, true, none, m :: rest⟩

/-- `selectBlocks`: flatten the scope, then select. -/
def selectBlocks (world : String → List RawBlock) (scopeId : String) (sel : NormSelector)
    (maxBlocks : Nat) : Except CliError SelectResult :=
  match flattenScopeBlocks world scopeId maxBlocks with
  | .error e => .error e
  | .ok st => selectBlocksOn st.blocks sel

/-! ## Range replacement (`replaceBlockRange`, `insertBlocks`, `deleteBlocks`)

Remote mutations are not applied to the modelled world; instead every
`appendBlockChildren` / `deleteBlock` call the code performs is recorded in a
trace, and the remote's responses are supplied by a `RemoteExec` behavior.
The world used for the pre-mutation re-listing is a second snapshot
(`execWorld`), modelling that the tree may have changed since planning. -/

inductive BlockInsertPosition where
  | start
  | atEnd
  | afterBlock (id : String)
deriving Repr, DecidableEq

/-- A remote mutation call made by the code. -/
inductive RemoteMutation where
  | append (parentId : String) (children : List Json) (position : BlockInsertPosition)
  | delete (blockId : String)

/-- Behavior of the remote service during the execution phase:
`execChildren` is what `listBlockChildren(parent)` returns now (a possibly
changed snapshot), `appendResult` the ids extracted from an
`appendBlockChildren` response (or the error it rejects with), `deleteResult`
the error a `deleteBlock` call rejects with, if any. -/
structure RemoteExec where
  execChildren : String → List RawBlock
  appendResult : String → List Json → BlockInsertPosition → Except MutErr (List String)
  deleteResult : String → Option MutErr

/-- The chunking loop, with fuel bounding the number of slices (the list
shrinks by at least one element per step, so `items.length` fuel always
suffices). -/
def chunkGo : Nat → List Json → List (List Json)
  | 0, _ => []
  | _, [] => []
  | fuel + 1, x :: rest => ((x :: rest).take 100) :: chunkGo fuel ((x :: rest).drop 100)

/-- `chunk(items, 100)`. -/
def chunk100 (items : List Json) : List (List Json) :=
  chunkGo items.length items

/-- The chunk loop of `insertBlocks`: append each chunk, accumulate the ids
the responses report, and anchor the next chunk after the last id returned
(if any).  Returns the accumulated ids and the trace of append calls. -/
def insertChunks (re : RemoteExec) (parentId : String) :
    List (List Json) → BlockInsertPosition → List String → List RemoteMutation →
    Except MutErr (List String) × List RemoteMutation
  | [], _, acc, trace => (.ok acc, trace)
  | c :: rest, pos, acc, trace =>
    match re.appendResult parentId c pos with
    | .error e => (.error e, trace ++ [.append parentId c pos])
    | .ok chunkIds =>
      let pos' := if chunkIds.isEmpty then pos else .afterBlock (chunkIds.getLastD "")
      insertChunks re parentId rest pos' (acc ++ chunkIds)
        (trace ++ [.append parentId c pos])

/-- `insertBlocks` (non-dry-run path): reports `inserted_count =
blocks.length` and the ids collected from the responses. -/
def insertBlocksExec (re : RemoteExec) (parentId : String) (blocks : List Json)
    (position : BlockInsertPosition) :
    Except MutErr (Nat × List String) × List RemoteMutation :=
  if blocks.isEmpty then
    (.error (.cli ⟨.invalid_input, "At least one block is required.", false, none⟩), [])
  else
    match insertChunks re parentId (chunk100 blocks) position [] [] with
    | (.ok ids, trace) => (.ok (blocks.length, ids), trace)
    | (.error e, trace) => (.error e, trace)

/-- The deletion loop of `replaceBlockRange` (and of `deleteBlocks`): delete
each block in order; a rejection propagates the raw remote error as-is. -/
def deleteLoop (re : RemoteExec) : List String → Except MutErr Unit × List RemoteMutation
  | [] => (.ok (), [])
  | blockId :: rest =>
    match re.deleteResult blockId with
    | some e => (.error e, [.delete blockId])
    | none =>
      let (r, trace) := deleteLoop re rest
      (r, .delete blockId :: trace)

/-- `elements.slice(from, to)` for in-range `Nat` bounds. -/
def listSlice (xs : List FlatBlock) (a b : Nat) : List FlatBlock :=
  (xs.drop a).take (b - a)

def crossParentError : CliError :=
  ⟨.invalid_input,
    "start-selector-json and end-selector-json must resolve to siblings under the same parent block.",
    false, none⟩

def invertedOrderError : CliError :=
  ⟨.invalid_input,
    "start-selector-json resolved after end-selector-json within the sibling order.",
    false, none⟩

def rangeChangedError : CliError :=
  ⟨.conflict,
    "Target block range changed during planning. Retry to re-resolve the selection.",
    false, none⟩

/-- The plan `replaceBlockRange` computes before mutating. -/
structure ReplacePlan where
  parent_id : String
  delete_ids : List String
  insert_position : BlockInsertPosition
  insert_count : Nat
deriving Repr, DecidableEq

inductive ReplaceOutcome where
  | dryRun (plan : ReplacePlan)
  | applied (plan : ReplacePlan) (inserted_count : Nat) (inserted_ids : List String)
      (deleted_count : Nat)
deriving Repr, DecidableEq

structure ReplaceArgs where
  scopeId : String
  /-- the tree as seen while planning (`flattenScopeBlocks`) -/
  planWorld : String → List RawBlock
  startSelector : NormSelector
  endSelector : NormSelector
  blocks : List Json
  inclusiveStart : Bool
  inclusiveEnd : Bool
  dryRun : Bool
  maxBlocks : Nat
  /-- the remote behavior during the execution phase -/
  remote : RemoteExec

/-- The re-listing of the parent's children immediately before mutating:
`sibling_index`/`order_index` are the raw enumeration index, invalid-id
blocks are dropped after assigning indexes (exactly as the source's
`map`-then-`filter`). -/
def currentSiblingsOf (parentId : String) (raws : List RawBlock) : List FlatBlock :=
  (raws.enum).filterMap fun p =>
    if p.2.id = "" then none
    else some ⟨p.2.id, parentId, p.2.type, p.2.text, p.2.has_children,
      p.2.last_edited_time, p.1, p.1⟩

/-- Fallback for the JS `siblings[replaceFrom - 1]` member access. -/
def dummyFlatBlock : FlatBlock := ⟨"", "", none, "", false, none, 0, 0⟩

/-- `replaceFrom = inclusiveStart ? start.sibling_index : start.sibling_index + 1` -/
def replaceFromOf (inclusiveStart : Bool) (startBlock : FlatBlock) : Nat :=
  if inclusiveStart then startBlock.sibling_index else startBlock.sibling_index + 1

/-- `replaceTo = inclusiveEnd ? end.sibling_index : end.sibling_index - 1`
(computed over `Int`: it can be `-1` in JS). -/
def replaceToOf (inclusiveEnd : Bool) (endBlock : FlatBlock) : Int :=
  if inclusiveEnd then (endBlock.sibling_index : Int) else (endBlock.sibling_index : Int) - 1

/-- `blocksToDelete = replaceFrom <= replaceTo ? siblings.slice(replaceFrom,
replaceTo + 1) : []` -/
def blocksToDeleteOf (inclusiveStart inclusiveEnd : Bool) (siblings : List FlatBlock)
    (startBlock endBlock : FlatBlock) : List FlatBlock :=
  let replaceFrom := replaceFromOf inclusiveStart startBlock
  let replaceTo := replaceToOf inclusiveEnd endBlock
  if (replaceFrom : Int) ≤ replaceTo then listSlice siblings replaceFrom (replaceTo + 1).toNat
  else []

/-- The insertion anchor: start-of-parent, or after the preceding sibling. -/
def insertPositionOf (inclusiveStart : Bool) (siblings : List FlatBlock)
    (startBlock : FlatBlock) : BlockInsertPosition :=
  let replaceFrom := replaceFromOf inclusiveStart startBlock
  if replaceFrom = 0 then .start
  else .afterBlock ((siblings.getD (replaceFrom - 1) dummyFlatBlock).id)

/-- `replaceBlockRange`: plan from the flattened scope, validate endpoints,
dry-run or re-validate the sibling fingerprint, insert replacement content,
then delete the planned range.  The second component is the trace of remote
mutation calls performed. -/
def replaceBlockRange (args : ReplaceArgs) :
    Except MutErr ReplaceOutcome × List RemoteMutation :=
  match flattenScopeBlocks args.planWorld args.scopeId args.maxBlocks with
  | .error e => (.error (.cli e), [])
  | .ok flattened =>
  match resolveSelectorStrict flattened.blocks args.startSelector "start-selector-json" with
  | .error e => (.error (.cli e), [])
  | .ok (startBlock, _) =>
  match resolveSelectorStrict flattened.blocks args.endSelector "end-selector-json" with
  | .error e => (.error (.cli e), [])
  | .ok (endBlock, _) =>
  if startBlock.parent_id ≠ endBlock.parent_id then (.error (.cli crossParentError), [])
  else
  let siblings := (List.lookup startBlock.parent_id flattened.siblingsByParent).getD []
  if startBlock.sibling_index > endBlock.sibling_index then
    (.error (.cli invertedOrderError), [])
  else
  let blocksToDelete := blocksToDeleteOf args.inclusiveStart args.inclusiveEnd siblings
    startBlock endBlock
  let insertPosition := insertPositionOf args.inclusiveStart siblings startBlock
  let plan : ReplacePlan :=
    ⟨startBlock.parent_id, blocksToDelete.map (·.id), insertPosition, args.blocks.length⟩
  if args.dryRun then (.ok (.dryRun plan), [])
  else
  let beforeFingerprint := siblingsFingerprint siblings
  let currentSiblings :=
    currentSiblingsOf startBlock.parent_id (args.remote.execChildren startBlock.parent_id)
  if beforeFingerprint ≠ siblingsFingerprint currentSiblings then
    (.error (.cli rangeChangedError), [])
  else
  let (insRes, insTrace) :=
    if args.blocks.length > 0 then
      insertBlocksExec args.remote startBlock.parent_id args.blocks insertPosition
    else (.ok (0, []), [])
  match insRes with
  | .error e => (.error e, insTrace)
  | .ok (insertedCount, insertedIds) =>
    match deleteLoop args.remote (blocksToDelete.map (·.id)) with
    | (.error e, delTrace) => (.error e, insTrace ++ delTrace)
    | (.ok _, delTrace) =>
      (.ok (.applied plan insertedCount insertedIds blocksToDelete.length),
        insTrace ++ delTrace)

/-- `deleteBlocks`: delete each listed block, reporting the confirmed ids on
success (a mid-loop rejection propagates the raw error, as in `deleteLoop`). -/
def deleteBlocks (re : RemoteExec) (blockIds : List String) :
    Except MutErr (Nat × List String) × List RemoteMutation :=
  match deleteLoop re blockIds with
  | (.ok _, trace) => (.ok (blockIds.length, blockIds), trace)
  | (.error e, trace) => (.error e, trace)

/-! ## Reference traversal orders

`preorderIds` follows the spec's words ("depth-first, pre-order": every block
is followed immediately by its own subtree) and is compared against the
flattener.  `siblingBatchIds` describes the order the walk actually emits
(all direct children of a parent consecutively, then the descents in sibling
order); both skip blocks without a string id and descend only below blocks
whose `has_children` flag is set, like the walk. -/

/-- Pre-order emission of a child list, with the subtree emission supplied
as `sub`. -/
def preorderListWith (sub : String → List String) : List RawBlock → List String
  | [] => []
  | raw :: rest =>
    (raw.id :: (if raw.has_children then sub raw.id else [])) ++ preorderListWith sub rest

def preorderIds (world : String → List RawBlock) : Nat → String → List String
  | 0 => fun _ => []
  | fuel + 1 => fun parentId =>
    preorderListWith (preorderIds world fuel) ((world parentId).filter (fun r => r.id ≠ ""))

/-- Sibling-batch descent emission of a child list, with the subtree
emission supplied as `sub`. -/
def rawsDescendIdsWith (sub : String → List String) : List RawBlock → List String
  | [] => []
  | raw :: rest =>
    (if raw.has_children then sub raw.id else []) ++ rawsDescendIdsWith sub rest

def siblingBatchIds (world : String → List RawBlock) : Nat → String → List String
  | 0 => fun _ => []
  | fuel + 1 => fun parentId =>
    let kept := (world parentId).filter (fun r => r.id ≠ "")
    kept.map (·.id) ++ rawsDescendIdsWith (siblingBatchIds world fuel) kept

/-- Sibling-batch descent emission over the flattened siblings themselves
(used to relate `descendWith` to `rawsDescendIdsWith`). -/
def flatsDescendIds (sub : String → List String) : List FlatBlock → List String
  | [] => []
  | s :: rest => (if s.has_children then sub s.id else []) ++ flatsDescendIds sub rest

/-- The `(id, index)` pairs of the valid blocks of a raw child listing,
enumerating from `idx`: the enumeration index advances even over skipped
(invalid-id) entries, exactly like the walk's `sibling_index`. -/
def rawSiblingIndexesFrom (idx : Nat) : List RawBlock → List (String × Nat)
  | [] => []
  | raw :: rest =>
    if raw.id = "" then rawSiblingIndexesFrom (idx + 1) rest
    else (raw.id, idx) :: rawSiblingIndexesFrom (idx + 1) rest

/-- The `(id, sibling_index)` pairs a parent's raw child listing induces. -/
def rawSiblingIndexes (raws : List RawBlock) : List (String × Nat) :=
  rawSiblingIndexesFrom 0 raws

/-- The flattened id list of a successful scan. -/
def flatIdsOf : Except CliError FlatState → Option (List String)
  | .ok st => some (st.blocks.map (·.id))
  | .error _ => none

/-! ## Concrete scenarios used by counterexamples and witnesses -/

/-- A store holding one entry whose age (at time 180001) just exceeds the
180000 ms TTL. -/
def expiredEntryData : StoreData :=
  [(compositeKey "k" "pages.update", ⟨"h1", .str "r", 0⟩)]

/-- A coordinator invocation whose `run` throws a non-ambiguous
(`invalid_input`) error; no `recover`, no classifier override. -/
def failingRunArgs : MutationArgs :=
  ⟨"pages.update", .null, .throws (.cli ⟨.invalid_input, "bad", false, none⟩), none, none⟩

/-- A coordinator invocation whose `run` throws an ambiguous (HTTP 500)
error; no `recover`, no classifier override. -/
def ambiguousRunArgs : MutationArgs :=
  ⟨"pages.update", .null, .throws (.js (some 500) none), none, none⟩

/-- A coordinator invocation whose `run` succeeds with `"done"`. -/
def okRunArgs : MutationArgs :=
  ⟨"pages.update", .null, .ok (.str "done"), none, none⟩

/-- A scope with a single childless paragraph block `b1`. -/
def oneParagraphWorld : String → List RawBlock := fun parentId =>
  if parentId = "scope" then [⟨"b1", some "paragraph", "hello", false, some "t1"⟩] else []

/-- A scope with two childless paragraph blocks `b1`, `b2`. -/
def twoParagraphWorld : String → List RawBlock := fun parentId =>
  if parentId = "scope" then
    [⟨"b1", some "paragraph", "one", false, none⟩,
     ⟨"b2", some "paragraph", "two", false, none⟩]
  else []

/-- A scope with three childless paragraph blocks `c1`, `c2`, `c3`. -/
def threeParagraphWorld : String → List RawBlock := fun parentId =>
  if parentId = "scope" then
    [⟨"c1", some "paragraph", "one", false, none⟩,
     ⟨"c2", some "paragraph", "two", false, none⟩,
     ⟨"c3", some "paragraph", "three", false, none⟩]
  else []

/-- Scope children `A` (with child `X`) and `B`: the shape on which
sibling-batch order and pre-order differ. -/
def nestedWorld : String → List RawBlock := fun parentId =>
  if parentId = "scope" then
    [⟨"A", some "paragraph", "", true, none⟩, ⟨"B", some "paragraph", "", false, none⟩]
  else if parentId = "A" then [⟨"X", some "paragraph", "", false, none⟩]
  else []

/-- Selector matching every paragraph. -/
def paragraphSelector : NormSelector := ⟨some "paragraph", none, none, false, none⟩

/-- Selector matching the `nth` paragraph from the front. -/
def nthParagraphSelector (nth : Nat) : NormSelector :=
  ⟨some "paragraph", none, none, false, some nth⟩

/-- A remote that answers nothing and never fails. -/
def inertRemote : RemoteExec := ⟨fun _ => [], fun _ _ _ => .ok [], fun _ => none⟩

/-- Replace-range invocation on `oneParagraphWorld` with both endpoints
exclusive on the same single block (dry run): the adjusted range inverts. -/
def invertedAdjustedArgs : ReplaceArgs :=
  ⟨"scope", oneParagraphWorld, paragraphSelector, paragraphSelector, [],
    false, false, true, 10, inertRemote⟩

/-- Replace-range invocation on `twoParagraphWorld` whose start selector
resolves after its end selector (raw sibling order inverted). -/
def rawInvertedArgs : ReplaceArgs :=
  ⟨"scope", twoParagraphWorld, nthParagraphSelector 2, nthParagraphSelector 1, [],
    true, true, true, 10, inertRemote⟩

/-- Replace-range invocation on `oneParagraphWorld` whose execution-time
re-listing returns nothing (the block vanished between planning and
execution). -/
def vanishedRangeArgs : ReplaceArgs :=
  ⟨"scope", oneParagraphWorld, paragraphSelector, paragraphSelector, [],
    true, true, false, 10, inertRemote⟩

/-- The raw remote error a failing `deleteBlock` call rejects with. -/
def remoteDeleteError : MutErr := .js (some 404) (some "object_not_found")

/-- Replace-range invocation on `twoParagraphWorld` deleting `[b1, b2]`
(no insertion content) where the remote rejects the deletion of `b2`. -/
def partialDeleteArgs : ReplaceArgs :=
  ⟨"scope", twoParagraphWorld, nthParagraphSelector 1, nthParagraphSelector 2, [],
    true, true, false, 10,
    ⟨twoParagraphWorld, fun _ _ _ => .ok [],
      fun blockId => if blockId = "b2" then some remoteDeleteError else none⟩⟩

/-- Replace-range invocation on `threeParagraphWorld` deleting `[c1, c2, c3]`
where the remote rejects the deletion of `c3`. -/
def partialDeleteArgs3 : ReplaceArgs :=
  ⟨"scope", threeParagraphWorld, nthParagraphSelector 1, nthParagraphSelector 3, [],
    true, true, false, 10,
    ⟨threeParagraphWorld, fun _ _ _ => .ok [],
      fun blockId => if blockId = "c3" then some remoteDeleteError else none⟩⟩

/-- A replacement paragraph block payload. -/
def paragraphJson : Json :=
  .obj [("type", .str "paragraph"),
        ("paragraph", .obj [("rich_text", .arr [.str "new text"])])]

/-- Replace-range invocation on `threeParagraphWorld` inserting one
replacement block (the remote confirms it as `n1`) and deleting
`[c1, c2, c3]`, where the remote rejects the deletion of `c3`. -/
def partialDeleteArgsIns : ReplaceArgs :=
  ⟨"scope", threeParagraphWorld, nthParagraphSelector 1, nthParagraphSelector 3,
    [paragraphJson], true, true, false, 10,
    ⟨threeParagraphWorld, fun _ _ _ => .ok ["n1"],
      fun blockId => if blockId = "c3" then some remoteDeleteError else none⟩⟩

/-! ## Association list / prune helper lemmas -/

theorem lookup_filter_some {β : Type} (p : String × β → Bool) (key : String) (e : β)
    (l : List (String × β)) (hl : List.lookup key l = some e) (hp : p (key, e) = true) :
    List.lookup key (l.filter p) = some e := by
  induction l with
  | nil => simp [List.lookup] at hl
  | cons kv rest ih =>
    obtain ⟨k, v⟩ := kv
    by_cases hk : (key == k) = true
    · have hkey : key = k := eq_of_beq hk
      subst hkey
      simp only [List.lookup, beq_self_eq_true, Option.some.injEq] at hl
      subst hl
      rw [List.filter_cons_of_pos hp]
      simp only [List.lookup, beq_self_eq_true]
    · simp only [List.lookup, hk] at hl
      by_cases hpk : p (k, v) = true
      · rw [List.filter_cons_of_pos hpk]
        simp only [List.lookup, hk]
        exact ih hl
      · rw [List.filter_cons_of_neg (by simpa using hpk)]
        exact ih hl

theorem lookup_none_of_not_mem_keys {β : Type} (key : String) (l : List (String × β))
    (h : key ∉ l.map Prod.fst) : List.lookup key l = none := by
  induction l with
  | nil => simp [List.lookup]
  | cons kv rest ih =>
    obtain ⟨k, v⟩ := kv
    rw [List.map_cons, List.mem_cons] at h
    push_neg at h
    have hk : (key == k) = false := by
      rw [beq_eq_false_iff_ne]
      exact h.1
    simp only [List.lookup, hk]
    exact ih h.2

theorem lookup_none_filter {β : Type} (p : String × β → Bool) (key : String)
    (l : List (String × β)) (hl : List.lookup key l = none) :
    List.lookup key (l.filter p) = none := by
  induction l with
  | nil => simp [List.lookup]
  | cons kv rest ih =>
    obtain ⟨k, v⟩ := kv
    by_cases hk : (key == k) = true
    · simp [List.lookup, hk] at hl
    · simp only [List.lookup, hk] at hl
      by_cases hpk : p (k, v) = true
      · rw [List.filter_cons_of_pos hpk]
        simp only [List.lookup, hk]
        exact ih hl
      · rw [List.filter_cons_of_neg (by simpa using hpk)]
        exact ih hl

theorem lookup_filter_none {β : Type} (p : String × β → Bool) (key : String) (e : β)
    (l : List (String × β)) (hnd : (l.map Prod.fst).Nodup)
    (hl : List.lookup key l = some e) (hp : p (key, e) = false) :
    List.lookup key (l.filter p) = none := by
  induction l with
  | nil => simp [List.lookup] at hl
  | cons kv rest ih =>
    obtain ⟨k, v⟩ := kv
    rw [List.map_cons, List.nodup_cons] at hnd
    by_cases hk : (key == k) = true
    · have hkey : key = k := eq_of_beq hk
      subst hkey
      simp only [List.lookup, beq_self_eq_true, Option.some.injEq] at hl
      subst hl
      rw [List.filter_cons_of_neg (by simpa using hp)]
      exact lookup_none_filter p key rest
        (lookup_none_of_not_mem_keys key rest hnd.1)
    · simp only [List.lookup, hk] at hl
      by_cases hpk : p (k, v) = true
      · rw [List.filter_cons_of_pos hpk]
        simp only [List.lookup, hk]
        exact ih hnd.2 hl
      · rw [List.filter_cons_of_neg (by simpa using hpk)]
        exact ih hnd.2 hl

theorem lookup_del_self {β : Type} (key : String) (l : List (String × β)) :
    List.lookup key (l.filter (fun kv => kv.1 != key)) = none := by
  induction l with
  | nil => simp [List.lookup]
  | cons kv rest ih =>
    obtain ⟨k, v⟩ := kv
    by_cases hk : (key == k) = true
    · have hkey : key = k := eq_of_beq hk
      subst hkey
      rw [List.filter_cons_of_neg (by simp [bne])]
      exact ih
    · have hke : k ≠ key := fun heq => by simp [heq] at hk
      rw [List.filter_cons_of_pos (by simpa [bne] using hke)]
      simp only [List.lookup, hk]
      exact ih

theorem lookup_prune_some (data : StoreData) (now : Nat) (key : String) (e : StoreEntry)
    (hl : List.lookup key data = some e)
    (hlive : now - e.createdAt ≤ PRUNE_TTL_MS) :
    List.lookup key (pruneData now data) = some e :=
  lookup_filter_some _ key e data hl (by simpa using hlive)

theorem lookup_prune_none_of_expired (data : StoreData) (now : Nat) (key : String)
    (e : StoreEntry) (hnd : (data.map Prod.fst).Nodup)
    (hl : List.lookup key data = some e)
    (hexp : e.createdAt + PRUNE_TTL_MS < now) :
    List.lookup key (pruneData now data) = none :=
  lookup_filter_none _ key e data hnd hl (by simp; omega)

theorem lookup_setEntry_self (l : StoreData) (key : String) (e : StoreEntry) :
    List.lookup key (setEntry l key e) = some e := by
  simp [setEntry, List.lookup]

theorem lookup_prune_cons_live (now : Nat) (key : String) (e : StoreEntry) (tail : StoreData)
    (hlive : now - e.createdAt ≤ PRUNE_TTL_MS) :
    List.lookup key (pruneData now ((key, e) :: tail)) = some e := by
  rw [pruneData, List.filter_cons_of_pos (by simpa using hlive)]
  simp [List.lookup]

/-! ## Claim C6 -/

/-- C6: for every stored entry whose age exceeds the TTL (180 s), a
subsequent `lookup` or `reserve` for that composite key behaves as if the
entry were absent: `lookup` returns `miss`, and `reserve` returns `execute`
(creating a fresh PENDING entry) rather than `pending`, `replay`, or
`conflict`. -/
theorem c6_ttl_expired_entry_invisible
    (data : StoreData) (now : Nat) (idempotencyKey commandName inputHash : String)
    (e : StoreEntry)
    (hnd : (data.map Prod.fst).Nodup)
    (hl : List.lookup (compositeKey idempotencyKey commandName) data = some e)
    (hexp : e.createdAt + PRUNE_TTL_MS < now) :
    (IdempotencyStore.lookup data now idempotencyKey commandName inputHash).1 = .miss ∧
    (IdempotencyStore.reserve data now idempotencyKey commandName inputHash).1 = .execute ∧
    List.lookup (compositeKey idempotencyKey commandName)
        (IdempotencyStore.reserve data now idempotencyKey commandName inputHash).2 =
      some ⟨inputHash, pendingResponse, now⟩ := by
  have hnone := lookup_prune_none_of_expired data now _ e hnd hl hexp
  refine ⟨?_, ?_, ?_⟩
  · simp only [IdempotencyStore.lookup, hnone]
  · simp only [IdempotencyStore.reserve, hnone]
  · simp only [IdempotencyStore.reserve, hnone]
    exact lookup_setEntry_self _ _ _

/-- Witness for C6 at a concrete expired entry. -/
theorem c6_ttl_expired_entry_invisible_witness :
    (IdempotencyStore.lookup expiredEntryData 180001 "k" "pages.update" "h1").1 = .miss ∧
    (IdempotencyStore.reserve expiredEntryData 180001 "k" "pages.update" "h1").1 = .execute ∧
    List.lookup (compositeKey "k" "pages.update")
        (IdempotencyStore.reserve expiredEntryData 180001 "k" "pages.update" "h1").2 =
      some ⟨"h1", pendingResponse, 180001⟩ :=
  c6_ttl_expired_entry_invisible expiredEntryData 180001 "k" "pages.update" "h1"
    ⟨"h1", .str "r", 0⟩ (by simp [expiredEntryData]) rfl (by norm_num [PRUNE_TTL_MS])

/-! ## Claim C5 -/

/-- C5 counterexample: the claim quantifies over every store state containing
an entry for the composite key, but for an entry older than the TTL (here
created at 0, `complete` called at 180001 ms) the prune pass removes it
first: `complete` with a different `inputHash` ("h2" vs the stored "h1")
does NOT throw `internal_error` — it succeeds and replaces the entry. -/
theorem c5_counterexample :
    (IdempotencyStore.complete expiredEntryData 180001 "k" "pages.update" "h2" (.str "v")).1 =
        .ok () ∧
    List.lookup (compositeKey "k" "pages.update")
        (IdempotencyStore.complete expiredEntryData 180001 "k" "pages.update" "h2"
          (.str "v")).2 =
      some ⟨"h2", .str "v", 180001⟩ :=
  ⟨rfl, rfl⟩

/-- C5 (amended): for every store state whose (live, i.e. not TTL-expired)
entry for the composite key has an `inputHash` differing from the one passed,
`complete` returns the `internal_error` failure and leaves the stored entry
(its inputHash, outcome and timestamp) unchanged. -/
theorem c5_amended_mismatched_complete_rejected
    (data : StoreData) (now : Nat) (idempotencyKey commandName inputHash : String)
    (v : Json) (e : StoreEntry)
    (hl : List.lookup (compositeKey idempotencyKey commandName) data = some e)
    (hlive : now - e.createdAt ≤ PRUNE_TTL_MS)
    (hne : e.inputHash ≠ inputHash) :
    (IdempotencyStore.complete data now idempotencyKey commandName inputHash v).1 =
      .error ⟨.internal_error,
        "Failed to finalize idempotency record for mutation replay.", false, none⟩ ∧
    List.lookup (compositeKey idempotencyKey commandName)
        (IdempotencyStore.complete data now idempotencyKey commandName inputHash v).2 =
      some e := by
  have hsome := lookup_prune_some data now _ e hl hlive
  constructor
  · simp only [IdempotencyStore.complete, hsome, if_pos hne]
  · simp only [IdempotencyStore.complete, hsome, if_pos hne]

/-- Witness for the amended C5 at a concrete live entry. -/
theorem c5_amended_mismatched_complete_rejected_witness :
    (IdempotencyStore.complete expiredEntryData 5 "k" "pages.update" "h2" (.str "v")).1 =
      .error ⟨.internal_error,
        "Failed to finalize idempotency record for mutation replay.", false, none⟩ ∧
    List.lookup (compositeKey "k" "pages.update")
        (IdempotencyStore.complete expiredEntryData 5 "k" "pages.update" "h2" (.str "v")).2 =
      some ⟨"h1", .str "r", 0⟩ :=
  c5_amended_mismatched_complete_rejected expiredEntryData 5 "k" "pages.update" "h2"
    (.str "v") ⟨"h1", .str "r", 0⟩ rfl (by norm_num [PRUNE_TTL_MS]) (by decide)

/-! ## Claim C10 -/

/-- C10 counterexample: the claim says `complete` on an absent key followed
by a `lookup` with the same key/command/inputHash returns `replay` of the
outcome for ANY outcome; but for the outcome `{ __notion_lite_pending: true }`
(whose serialization equals the PENDING sentinel string) the lookup reports
`pending`, not `replay`. -/
theorem c10_counterexample :
    (IdempotencyStore.complete [] 0 "k" "cmd" "h" pendingResponse).1 = .ok () ∧
    (IdempotencyStore.lookup
        (IdempotencyStore.complete [] 0 "k" "cmd" "h" pendingResponse).2
        0 "k" "cmd" "h").1 = .pending :=
  ⟨rfl, rfl⟩

/-- C10 (amended): `complete` on a composite key with no live entry succeeds
and creates a fresh entry with the given inputHash and outcome, and a lookup
at the same instant with the same key, command and inputHash replays that
outcome provided the outcome's serialization is not the reserved PENDING
sentinel; and `complete` fails (with `internal_error`) only when a live entry
with a different inputHash exists. -/
theorem c10_amended_complete_absent_creates
    : (∀ (data : StoreData) (now : Nat) (key cmd hash : String) (v : Json),
        List.lookup (compositeKey key cmd) (pruneData now data) = none →
        stringifyJson v ≠ PENDING_RESPONSE_JSON →
        (IdempotencyStore.complete data now key cmd hash v).1 = .ok () ∧
        (IdempotencyStore.lookup (IdempotencyStore.complete data now key cmd hash v).2
            now key cmd hash).1 = .replay v) ∧
      (∀ (data : StoreData) (now : Nat) (key cmd hash : String) (v : Json) (err : CliError),
        (IdempotencyStore.complete data now key cmd hash v).1 = .error err →
        err.code = .internal_error ∧
        ∃ e, List.lookup (compositeKey key cmd) (pruneData now data) = some e ∧
          e.inputHash ≠ hash) := by
  constructor
  · intro data now key cmd hash v hnone hv
    have hcomplete : IdempotencyStore.complete data now key cmd hash v =
        (.ok (), setEntry (pruneData now data) (compositeKey key cmd) ⟨hash, v, now⟩) := by
      simp only [IdempotencyStore.complete, hnone]
    refine ⟨by rw [hcomplete], ?_⟩
    rw [hcomplete]
    have hfound : List.lookup (compositeKey key cmd)
        (pruneData now (setEntry (pruneData now data) (compositeKey key cmd)
          ⟨hash, v, now⟩)) = some ⟨hash, v, now⟩ := by
      rw [setEntry]
      exact lookup_prune_cons_live now _ _ _ (by simp)
    simp only [IdempotencyStore.lookup, hfound]
    rw [if_neg (by simp), if_neg (by simp [StoreEntry.isPending, hv])]
  · intro data now key cmd hash v err hcomp
    cases hcase : List.lookup (compositeKey key cmd) (pruneData now data) with
    | none =>
      simp only [IdempotencyStore.complete, hcase] at hcomp
      exact Except.noConfusion hcomp
    | some e =>
      by_cases hne : e.inputHash ≠ hash
      · simp only [IdempotencyStore.complete, hcase, if_pos hne] at hcomp
        rw [Except.error.injEq] at hcomp
        subst hcomp
        exact ⟨rfl, e, rfl, hne⟩
      · simp only [IdempotencyStore.complete, hcase, if_neg hne] at hcomp
        exact Except.noConfusion hcomp

/-- Witness for the amended C10: both conjuncts applied at concrete inputs
(a fresh key, then a mismatched live entry). -/
theorem c10_amended_complete_absent_creates_witness :
    ((IdempotencyStore.complete [] 0 "k" "cmd" "h" (.str "x")).1 = .ok () ∧
      (IdempotencyStore.lookup (IdempotencyStore.complete [] 0 "k" "cmd" "h" (.str "x")).2
          0 "k" "cmd" "h").1 = .replay (.str "x")) ∧
    ((⟨.internal_error,
        "Failed to finalize idempotency record for mutation replay.", false, none⟩ :
          CliError).code = .internal_error ∧
      ∃ e, List.lookup (compositeKey "k" "pages.update") (pruneData 5 expiredEntryData) =
          some e ∧ e.inputHash ≠ "h2") :=
  ⟨c10_amended_complete_absent_creates.1 [] 0 "k" "cmd" "h" (.str "x") rfl (by decide),
   c10_amended_complete_absent_creates.2 expiredEntryData 5 "k" "pages.update" "h2"
     (.str "v") _ rfl⟩

/-! ## Coordinator helper lemmas -/

theorem reserve_fresh (data : StoreData) (now : Nat) (key cmd hash : String)
    (hfresh : List.lookup (compositeKey key cmd) (pruneData now data) = none) :
    IdempotencyStore.reserve data now key cmd hash =
      (.execute, setEntry (pruneData now data) (compositeKey key cmd)
        ⟨hash, pendingResponse, now⟩) := by
  simp only [IdempotencyStore.reserve, hfresh]

theorem release_own_pending (pr : StoreData) (now : Nat) (key cmd hash : String) :
    List.lookup (compositeKey key cmd)
      (IdempotencyStore.release
        (setEntry pr (compositeKey key cmd) ⟨hash, pendingResponse, now⟩) now key cmd hash) =
      none := by
  have hfound : List.lookup (compositeKey key cmd)
      (pruneData now (setEntry pr (compositeKey key cmd) ⟨hash, pendingResponse, now⟩)) =
      some ⟨hash, pendingResponse, now⟩ := by
    rw [setEntry]
    exact lookup_prune_cons_live now _ _ _ (by simp)
  simp only [IdempotencyStore.release, hfound]
  rw [if_pos (by simp [StoreEntry.isPending, PENDING_RESPONSE_JSON])]
  exact lookup_del_self _ _

theorem complete_own_pending (pr : StoreData) (now : Nat) (key cmd hash : String) (v : Json) :
    List.lookup (compositeKey key cmd)
      ((IdempotencyStore.complete
          (setEntry pr (compositeKey key cmd) ⟨hash, pendingResponse, now⟩)
          now key cmd hash v).2) =
      some ⟨hash, v, now⟩ := by
  have hfound : List.lookup (compositeKey key cmd)
      (pruneData now (setEntry pr (compositeKey key cmd) ⟨hash, pendingResponse, now⟩)) =
      some ⟨hash, pendingResponse, now⟩ := by
    rw [setEntry]
    exact lookup_prune_cons_live now _ _ _ (by simp)
  simp only [IdempotencyStore.complete, hfound]
  rw [if_neg (by simp)]
  exact lookup_setEntry_self _ _ _

/-- Two instants in the same 2-minute key bucket are less than 120 s apart,
which is within the 180 s store TTL. -/
theorem same_bucket_age_le (now1 now2 : Nat) (hb : now1 / 120000 = now2 / 120000)
    (hle : now1 ≤ now2) : now2 - now1 ≤ PRUNE_TTL_MS := by
  have h1 := Nat.div_add_mod now1 120000
  have h2 := Nat.div_add_mod now2 120000
  have m1 : now1 % 120000 < 120000 := Nat.mod_lt _ (by norm_num)
  have m2 : now2 % 120000 < 120000 := Nat.mod_lt _ (by norm_num)
  rw [PRUNE_TTL_MS]
  omega

theorem buildKey_same_bucket (now1 now2 : Nat) (c : String) (s : Json)
    (hb : now1 / 120000 = now2 / 120000) :
    buildInternalIdempotencyKey now1 c s = buildInternalIdempotencyKey now2 c s := by
  simp only [buildInternalIdempotencyKey, hb]

/-- On a fresh key, an invocation that returns an outcome leaves a live
terminal entry holding that outcome (stamped `now`), and ran `run` at most
once. -/
theorem exec_fresh_ok_store
    (now : Nat) (args : MutationArgs) (store0 : StoreData) (r : Json)
    (hfresh : List.lookup
        (compositeKey (buildInternalIdempotencyKey now args.commandName args.requestShape)
          args.commandName)
        (pruneData now store0) = none)
    (hok : (executeMutationWithIdempotency now args store0).result = .ok r) :
    List.lookup
        (compositeKey (buildInternalIdempotencyKey now args.commandName args.requestShape)
          args.commandName)
        (executeMutationWithIdempotency now args store0).store =
      some ⟨hashObject args.requestShape, r, now⟩ ∧
    (executeMutationWithIdempotency now args store0).runCount ≤ 1 := by
  have hres := reserve_fresh store0 now
    (buildInternalIdempotencyKey now args.commandName args.requestShape)
    args.commandName (hashObject args.requestShape) hfresh
  cases hr : args.run with
  | ok v =>
    have hE : executeMutationWithIdempotency now args store0 =
        ⟨.ok v,
          (IdempotencyStore.complete
            (setEntry (pruneData now store0)
              (compositeKey
                (buildInternalIdempotencyKey now args.commandName args.requestShape)
                args.commandName)
              ⟨hashObject args.requestShape, pendingResponse, now⟩)
            now (buildInternalIdempotencyKey now args.commandName args.requestShape)
            args.commandName (hashObject args.requestShape) v).2, 1⟩ := by
      simp only [executeMutationWithIdempotency, hres, hr]
    rw [hE] at hok ⊢
    have hv : v = r := by simpa using hok
    subst hv
    exact ⟨complete_own_pending _ _ _ _ _ _, by norm_num⟩
  | throws e2 =>
    by_cases hamb : isAmbiguousMutationError e2 args.isAmbiguousOverride = true
    · cases hrec : args.recover with
      | none =>
        have hE : (executeMutationWithIdempotency now args store0).result =
            .error (.cli mutationUnconfirmedError) := by
          simp only [executeMutationWithIdempotency, hres, hr, hamb, hrec, if_true]
        rw [hE] at hok
        exact Except.noConfusion hok
      | some rb =>
        cases rb with
        | value v =>
          have hE : executeMutationWithIdempotency now args store0 =
              ⟨.ok v,
                (IdempotencyStore.complete
                  (setEntry (pruneData now store0)
                    (compositeKey
                      (buildInternalIdempotencyKey now args.commandName args.requestShape)
                      args.commandName)
                    ⟨hashObject args.requestShape, pendingResponse, now⟩)
                  now (buildInternalIdempotencyKey now args.commandName args.requestShape)
                  args.commandName (hashObject args.requestShape) v).2, 1⟩ := by
            simp only [executeMutationWithIdempotency, hres, hr, hamb, hrec, if_true]
          rw [hE] at hok ⊢
          have hv : v = r := by simpa using hok
          subst hv
          exact ⟨complete_own_pending _ _ _ _ _ _, by norm_num⟩
        | nullResult =>
          have hE : (executeMutationWithIdempotency now args store0).result =
              .error (.cli mutationUnconfirmedError) := by
            simp only [executeMutationWithIdempotency, hres, hr, hamb, hrec, if_true]
          rw [hE] at hok
          exact Except.noConfusion hok
        | throws e3 =>
          have hE : (executeMutationWithIdempotency now args store0).result =
              .error (.cli mutationUnconfirmedError) := by
            simp only [executeMutationWithIdempotency, hres, hr, hamb, hrec, if_true]
          rw [hE] at hok
          exact Except.noConfusion hok
    · have hambf : isAmbiguousMutationError e2 args.isAmbiguousOverride = false :=
        Bool.not_eq_true _ ▸ Bool.of_not_eq_true hamb
      have hE : (executeMutationWithIdempotency now args store0).result = .error e2 := by
        simp only [executeMutationWithIdempotency, hres, hr, hambf, Bool.false_eq_true,
          if_false]
      rw [hE] at hok
      exact Except.noConfusion hok

/-! ## Claim C2 -/

/-- C2: when the coordinator owns the reservation and `run` throws an
ambiguous error, if `recover` is absent, returns null, or itself throws, the
coordinator releases the reservation and raises the single retryable
"Mutation outcome could not be confirmed" error: the raw ambiguous error is
not propagated and no success or failure outcome is fabricated. -/
theorem c2_ambiguous_unrecovered_is_unconfirmed
    (now : Nat) (args : MutationArgs) (store0 : StoreData) (e : MutErr)
    (hfresh : List.lookup
        (compositeKey (buildInternalIdempotencyKey now args.commandName args.requestShape)
          args.commandName)
        (pruneData now store0) = none)
    (hrun : args.run = .throws e)
    (hamb : isAmbiguousMutationError e args.isAmbiguousOverride = true)
    (hrec : args.recover = none ∨ args.recover = some .nullResult ∨
      ∃ e2, args.recover = some (.throws e2)) :
    (executeMutationWithIdempotency now args store0).result =
      .error (.cli mutationUnconfirmedError) ∧
    List.lookup
        (compositeKey (buildInternalIdempotencyKey now args.commandName args.requestShape)
          args.commandName)
        (executeMutationWithIdempotency now args store0).store = none ∧
    (executeMutationWithIdempotency now args store0).runCount = 1 := by
  have hres := reserve_fresh store0 now
    (buildInternalIdempotencyKey now args.commandName args.requestShape)
    args.commandName (hashObject args.requestShape) hfresh
  have hrel := release_own_pending (pruneData now store0) now
    (buildInternalIdempotencyKey now args.commandName args.requestShape)
    args.commandName (hashObject args.requestShape)
  rcases hrec with h | h | ⟨e2, h⟩ <;>
  · have hE : executeMutationWithIdempotency now args store0 =
        ⟨.error (.cli mutationUnconfirmedError),
          IdempotencyStore.release
            (setEntry (pruneData now store0)
              (compositeKey
                (buildInternalIdempotencyKey now args.commandName args.requestShape)
                args.commandName)
              ⟨hashObject args.requestShape, pendingResponse, now⟩)
            now (buildInternalIdempotencyKey now args.commandName args.requestShape)
            args.commandName (hashObject args.requestShape), 1⟩ := by
      simp only [executeMutationWithIdempotency, hres, hrun, hamb, h, if_true]
    rw [hE]
    exact ⟨rfl, hrel, rfl⟩

/-- Witness for C2: ambiguous HTTP 500 failure, no recover callback. -/
theorem c2_ambiguous_unrecovered_is_unconfirmed_witness :
    (executeMutationWithIdempotency 5 ambiguousRunArgs []).result =
      .error (.cli mutationUnconfirmedError) ∧
    List.lookup
        (compositeKey (buildInternalIdempotencyKey 5 ambiguousRunArgs.commandName
          ambiguousRunArgs.requestShape) ambiguousRunArgs.commandName)
        (executeMutationWithIdempotency 5 ambiguousRunArgs []).store = none ∧
    (executeMutationWithIdempotency 5 ambiguousRunArgs []).runCount = 1 :=
  c2_ambiguous_unrecovered_is_unconfirmed 5 ambiguousRunArgs [] (.js (some 500) none)
    rfl rfl rfl (Or.inl rfl)

/-! ## Claim C1 -/

/-- C1 counterexample: the claim quantifies over invocation pairs with the
identical (commandName, requestShape) in one time bucket and asserts `run` is
invoked at most once in total — but when the first invocation's `run` throws
a non-ambiguous error, the reservation is released and the second invocation
re-executes `run`: two invocations of the run callback in total. -/
theorem c1_counterexample :
    (executeMutationWithIdempotency 0 failingRunArgs []).runCount +
      (executeMutationWithIdempotency 0 failingRunArgs
        (executeMutationWithIdempotency 0 failingRunArgs []).store).runCount = 2 := rfl

/-- C1 (amended): starting from a store with no live entry for the derived
key, if the first invocation returns an outcome `r` (run succeeded or
recovery confirmed) whose serialization is not the PENDING sentinel, then a
second invocation with the identical (commandName, requestShape) later in the
same time bucket replays `r` without invoking its run callback, and the two
invocations invoke `run` at most once in total. -/
theorem c1_amended_second_call_replays
    (now1 now2 : Nat) (args1 args2 : MutationArgs) (store0 : StoreData) (r : Json)
    (hfresh : List.lookup
        (compositeKey (buildInternalIdempotencyKey now1 args1.commandName args1.requestShape)
          args1.commandName)
        (pruneData now1 store0) = none)
    (hok : (executeMutationWithIdempotency now1 args1 store0).result = .ok r)
    (hsent : stringifyJson r ≠ PENDING_RESPONSE_JSON)
    (hcmd : args2.commandName = args1.commandName)
    (hshape : args2.requestShape = args1.requestShape)
    (hb : now1 / 120000 = now2 / 120000)
    (hle : now1 ≤ now2) :
    (executeMutationWithIdempotency now2 args2
        (executeMutationWithIdempotency now1 args1 store0).store).result = .ok r ∧
    (executeMutationWithIdempotency now1 args1 store0).runCount +
      (executeMutationWithIdempotency now2 args2
        (executeMutationWithIdempotency now1 args1 store0).store).runCount ≤ 1 := by
  obtain ⟨hstore1, hrc1⟩ := exec_fresh_ok_store now1 args1 store0 r hfresh hok
  have hkey : buildInternalIdempotencyKey now2 args2.commandName args2.requestShape =
      buildInternalIdempotencyKey now1 args1.commandName args1.requestShape := by
    rw [hcmd, hshape]
    exact buildKey_same_bucket now2 now1 args1.commandName args1.requestShape hb.symm
  have hlive : now2 - (⟨hashObject args1.requestShape, r, now1⟩ : StoreEntry).createdAt ≤
      PRUNE_TTL_MS := same_bucket_age_le now1 now2 hb hle
  have hsome2 : List.lookup
      (compositeKey (buildInternalIdempotencyKey now2 args2.commandName args2.requestShape)
        args2.commandName)
      (pruneData now2 (executeMutationWithIdempotency now1 args1 store0).store) =
      some ⟨hashObject args1.requestShape, r, now1⟩ := by
    rw [hkey, hcmd]
    exact lookup_prune_some _ now2 _ _ hstore1 hlive
  have hreserve : IdempotencyStore.reserve
      (executeMutationWithIdempotency now1 args1 store0).store now2
      (buildInternalIdempotencyKey now2 args2.commandName args2.requestShape)
      args2.commandName (hashObject args2.requestShape) =
      (.replay r,
        pruneData now2 (executeMutationWithIdempotency now1 args1 store0).store) := by
    simp only [IdempotencyStore.reserve, hsome2]
    rw [if_neg (by simp [hshape]), if_neg (by simp [StoreEntry.isPending, hsent])]
  have hEgen : ∀ st : StoreData,
      IdempotencyStore.reserve st now2
        (buildInternalIdempotencyKey now2 args2.commandName args2.requestShape)
        args2.commandName (hashObject args2.requestShape) =
        (.replay r, pruneData now2 st) →
      executeMutationWithIdempotency now2 args2 st = ⟨.ok r, pruneData now2 st, 0⟩ := by
    intro st hres2
    simp only [executeMutationWithIdempotency, hres2]
  have hE := hEgen (executeMutationWithIdempotency now1 args1 store0).store hreserve
  rw [hE]
  exact ⟨rfl, by simpa using hrc1⟩

/-- Witness for the amended C1: a successful `pages.update` at t=0 replayed
at t=119999 (same 2-minute bucket) without re-running. -/
theorem c1_amended_second_call_replays_witness :
    (executeMutationWithIdempotency 119999 okRunArgs
        (executeMutationWithIdempotency 0 okRunArgs []).store).result = .ok (.str "done") ∧
    (executeMutationWithIdempotency 0 okRunArgs []).runCount +
      (executeMutationWithIdempotency 119999 okRunArgs
        (executeMutationWithIdempotency 0 okRunArgs []).store).runCount ≤ 1 :=
  c1_amended_second_call_replays 0 119999 okRunArgs okRunArgs [] (.str "done")
    rfl rfl (by decide) rfl rfl (by norm_num) (by norm_num)

/-! ## Claim C4 -/

/-- C4: for every flattened block list and selector, (a) an `nth` beyond the
match count (1-based from the front for `start`, from the back for `end`)
fails with `not_found` in both resolvers, never silently clamped; (b) with no
`nth` and more than one match, the ambiguity-tolerant `selectBlocks` logic
returns `ambiguous = true`, `selected = null` and the non-empty match list,
while the strict resolver used by range replacement fails loudly with
`conflict`. -/
theorem c4_selector_nth_and_ambiguity :
    (∀ (blocks : List FlatBlock) (sel : NormSelector) (label : String) (n : Nat),
      sel.nth = some n →
      (blocks.filter (fun b => matchesSelector b sel)).length < n →
      (∃ msg, selectBlocksOn blocks sel = .error ⟨.not_found, msg, false, none⟩) ∧
      (∃ msg, resolveSelectorStrict blocks sel label =
        .error ⟨.not_found, msg, false, none⟩)) ∧
    (∀ (blocks : List FlatBlock) (sel : NormSelector) (label : String),
      sel.nth = none →
      1 < (blocks.filter (fun b => matchesSelector b sel)).length →
      (∃ r, selectBlocksOn blocks sel = .ok r ∧ r.ambiguous = true ∧ r.selected = none ∧
        r.matchList = blocks.filter (fun b => matchesSelector b sel) ∧ r.matchList ≠ []) ∧
      (∃ msg, resolveSelectorStrict blocks sel label =
        .error ⟨.conflict, msg, false, none⟩)) := by
  constructor
  · intro blocks sel label n hnth hbig
    cases hms : blocks.filter (fun b => matchesSelector b sel) with
    | nil =>
      refine ⟨⟨"selector-json matched no blocks.", ?_⟩,
        ⟨label ++ " matched no blocks.", ?_⟩⟩
      · simp only [selectBlocksOn, hms]
        rfl
      · simp only [resolveSelectorStrict, hms]
        rfl
    | cons m rest =>
      rw [hms] at hbig
      have hcond : nthIndex sel n (m :: rest).length < 0 ∨
          ((m :: rest).length : Int) ≤ nthIndex sel n (m :: rest).length := by
        rw [nthIndex]
        by_cases hfe : sel.fromEnd
        · rw [if_pos hfe]
          left
          omega
        · rw [if_neg hfe]
          right
          omega
      refine ⟨⟨"selector-json nth=" ++ toString n ++ " is out of range for " ++
          toString (m :: rest).length ++ " matches.", ?_⟩,
        ⟨label ++ " nth=" ++ toString n ++ " is out of range for " ++
          toString (m :: rest).length ++ " matches.", ?_⟩⟩
      · simp only [selectBlocksOn, hms, hnth]
        rw [if_pos hcond]
        rfl
      · simp only [resolveSelectorStrict, hms, hnth]
        rw [if_pos hcond]
        rfl
  · intro blocks sel label hnth hbig
    cases hms : blocks.filter (fun b => matchesSelector b sel) with
    | nil => rw [hms] at hbig; simp at hbig
    | cons m rest =>
      rw [hms] at hbig
      have hrest : rest.isEmpty = false := by
        cases rest with
        | nil => simp at hbig
        | cons a l => rfl
      refine ⟨⟨⟨(m :: rest).length, true, none, m :: rest⟩, ?_, rfl, rfl, hms.symm ▸ rfl,
        by simp⟩,
        ⟨label ++ " matched " ++ toString (m :: rest).length ++
          " blocks. Provide nth and/or where.parent_id to disambiguate.", ?_⟩⟩
      · simp only [selectBlocksOn, hms, hnth, hrest]
        rfl
      · simp only [resolveSelectorStrict, hms, hnth]
        rw [if_pos (by simpa using hbig)]
        rfl

/-- Witness for C4: both parts applied to a concrete two-block list — part
(a) with `nth = 5` over 2 matches, part (b) with no `nth` over 2 matches. -/
theorem c4_selector_nth_and_ambiguity_witness :
    ((∃ msg, selectBlocksOn
        [⟨"b1", "scope", some "paragraph", "one", false, none, 0, 0⟩,
         ⟨"b2", "scope", some "paragraph", "two", false, none, 1, 1⟩]
        (nthParagraphSelector 5) = .error ⟨.not_found, msg, false, none⟩) ∧
      (∃ msg, resolveSelectorStrict
        [⟨"b1", "scope", some "paragraph", "one", false, none, 0, 0⟩,
         ⟨"b2", "scope", some "paragraph", "two", false, none, 1, 1⟩]
        (nthParagraphSelector 5) "start-selector-json" =
          .error ⟨.not_found, msg, false, none⟩)) ∧
    ((∃ r, selectBlocksOn
        [⟨"b1", "scope", some "paragraph", "one", false, none, 0, 0⟩,
         ⟨"b2", "scope", some "paragraph", "two", false, none, 1, 1⟩]
        paragraphSelector = .ok r ∧ r.ambiguous = true ∧ r.selected = none ∧
        r.matchList =
          List.filter (fun b => matchesSelector b paragraphSelector)
            [⟨"b1", "scope", some "paragraph", "one", false, none, 0, 0⟩,
             ⟨"b2", "scope", some "paragraph", "two", false, none, 1, 1⟩] ∧
        r.matchList ≠ []) ∧
      (∃ msg, resolveSelectorStrict
        [⟨"b1", "scope", some "paragraph", "one", false, none, 0, 0⟩,
         ⟨"b2", "scope", some "paragraph", "two", false, none, 1, 1⟩]
        paragraphSelector "start-selector-json" =
          .error ⟨.conflict, msg, false, none⟩)) :=
  ⟨c4_selector_nth_and_ambiguity.1
      [⟨"b1", "scope", some "paragraph", "one", false, none, 0, 0⟩,
       ⟨"b2", "scope", some "paragraph", "two", false, none, 1, 1⟩]
      (nthParagraphSelector 5) "start-selector-json" 5 rfl (by decide),
   c4_selector_nth_and_ambiguity.2
      [⟨"b1", "scope", some "paragraph", "one", false, none, 0, 0⟩,
       ⟨"b2", "scope", some "paragraph", "two", false, none, 1, 1⟩]
      paragraphSelector "start-selector-json" rfl (by decide)⟩

/-! ## Claim C7 -/

/-- C7 counterexample: on a single-block range with both endpoints exclusive,
the adjusted start (1) exceeds the adjusted end (-1), yet `replaceBlockRange`
does NOT reject with `invalid_input`: it proceeds, treating the deletion set
as empty (here shown on the dry-run plan it happily returns).  The
`invalid_input` rejection tests only the raw sibling indexes, before the
inclusivity adjustment. -/
theorem c7_counterexample :
    replaceBlockRange invertedAdjustedArgs =
      (.ok (.dryRun ⟨"scope", [], .afterBlock "b1", 0⟩), []) := rfl

/-- C7 (amended): `replaceBlockRange` rejects with `invalid_input` exactly
when the start selector resolves to a sibling index strictly greater than the
end selector's, before the inclusive/exclusive adjustment; no remote mutation
is performed.  (When only the adjusted bounds invert, the request proceeds
with an empty deletion range, per the counterexample.) -/
theorem c7_amended_raw_order_checked
    (args : ReplaceArgs) (flattened : FlatState)
    (startBlock endBlock : FlatBlock) (ms me : List FlatBlock)
    (hfl : flattenScopeBlocks args.planWorld args.scopeId args.maxBlocks = .ok flattened)
    (hs : resolveSelectorStrict flattened.blocks args.startSelector "start-selector-json" =
      .ok (startBlock, ms))
    (he : resolveSelectorStrict flattened.blocks args.endSelector "end-selector-json" =
      .ok (endBlock, me))
    (hpar : startBlock.parent_id = endBlock.parent_id)
    (hord : startBlock.sibling_index > endBlock.sibling_index) :
    replaceBlockRange args = (.error (.cli invertedOrderError), []) := by
  simp only [replaceBlockRange, hfl, hs, he]
  rw [if_neg (by simp [hpar]), if_pos hord]

/-- Witness for the amended C7: start selector resolving to `b2` (index 1),
end selector to `b1` (index 0). -/
theorem c7_amended_raw_order_checked_witness :
    replaceBlockRange rawInvertedArgs = (.error (.cli invertedOrderError), []) :=
  c7_amended_raw_order_checked rawInvertedArgs
    ⟨[⟨"b1", "scope", some "paragraph", "one", false, none, 0, 0⟩,
      ⟨"b2", "scope", some "paragraph", "two", false, none, 1, 1⟩],
     [("scope",
       [⟨"b1", "scope", some "paragraph", "one", false, none, 0, 0⟩,
        ⟨"b2", "scope", some "paragraph", "two", false, none, 1, 1⟩])]⟩
    ⟨"b2", "scope", some "paragraph", "two", false, none, 1, 1⟩
    ⟨"b1", "scope", some "paragraph", "one", false, none, 0, 0⟩
    [⟨"b1", "scope", some "paragraph", "one", false, none, 0, 0⟩,
     ⟨"b2", "scope", some "paragraph", "two", false, none, 1, 1⟩]
    [⟨"b1", "scope", some "paragraph", "one", false, none, 0, 0⟩,
     ⟨"b2", "scope", some "paragraph", "two", false, none, 1, 1⟩]
    rfl rfl rfl rfl (by decide)

/-! ## Claim C3 -/

/-- C3: in every non-dry-run range replacement whose endpoint selectors
resolve to ordered siblings of one parent, if the sibling fingerprint
recomputed immediately before mutating differs from the fingerprint captured
during planning, `replaceBlockRange` fails with the `conflict` error and
performs no remote insertion and no deletion (the mutation trace is empty). -/
theorem c3_fingerprint_mismatch_aborts
    (args : ReplaceArgs) (flattened : FlatState)
    (startBlock endBlock : FlatBlock) (ms me : List FlatBlock)
    (hdry : args.dryRun = false)
    (hfl : flattenScopeBlocks args.planWorld args.scopeId args.maxBlocks = .ok flattened)
    (hs : resolveSelectorStrict flattened.blocks args.startSelector "start-selector-json" =
      .ok (startBlock, ms))
    (he : resolveSelectorStrict flattened.blocks args.endSelector "end-selector-json" =
      .ok (endBlock, me))
    (hpar : startBlock.parent_id = endBlock.parent_id)
    (hord : ¬ startBlock.sibling_index > endBlock.sibling_index)
    (hfp : siblingsFingerprint
        ((List.lookup startBlock.parent_id flattened.siblingsByParent).getD []) ≠
      siblingsFingerprint (currentSiblingsOf startBlock.parent_id
        (args.remote.execChildren startBlock.parent_id))) :
    replaceBlockRange args = (.error (.cli rangeChangedError), []) := by
  simp only [replaceBlockRange, hfl, hs, he]
  rw [if_neg (by simp [hpar]), if_neg hord]
  simp only [hdry, Bool.false_eq_true, if_false]
  rw [if_pos hfp]

/-- Witness for C3: the planned single-block range vanished before
execution (execution-time re-listing returns no children). -/
theorem c3_fingerprint_mismatch_aborts_witness :
    replaceBlockRange vanishedRangeArgs = (.error (.cli rangeChangedError), []) :=
  c3_fingerprint_mismatch_aborts vanishedRangeArgs
    ⟨[⟨"b1", "scope", some "paragraph", "hello", false, some "t1", 0, 0⟩],
     [("scope", [⟨"b1", "scope", some "paragraph", "hello", false, some "t1", 0, 0⟩])]⟩
    ⟨"b1", "scope", some "paragraph", "hello", false, some "t1", 0, 0⟩
    ⟨"b1", "scope", some "paragraph", "hello", false, some "t1", 0, 0⟩
    [⟨"b1", "scope", some "paragraph", "hello", false, some "t1", 0, 0⟩]
    [⟨"b1", "scope", some "paragraph", "hello", false, some "t1", 0, 0⟩]
    rfl rfl rfl rfl rfl (by decide) (by decide)

/-! ## Claim C9 -/

theorem deleteLoop_partial_failure (re : RemoteExec) (pre : List String) (badId : String)
    (rest : List String) (e : MutErr)
    (hpre : ∀ b ∈ pre, re.deleteResult b = none)
    (hbad : re.deleteResult badId = some e) :
    deleteLoop re (pre ++ badId :: rest) =
      (.error e, pre.map RemoteMutation.delete ++ [.delete badId]) := by
  induction pre with
  | nil =>
    simp only [List.nil_append, deleteLoop, hbad, List.map_nil]
  | cons b tl ih =>
    have hb : re.deleteResult b = none := hpre b (by simp)
    have htl : ∀ x ∈ tl, re.deleteResult x = none := fun x hx => hpre x (by simp [hx])
    simp [deleteLoop, hb, ih htl]

/-- C9 counterexample: insertion (vacuously) succeeded, the deletion of the
planned block `b2` then fails — the error surfaced by `replaceBlockRange` is
the raw remote rejection (`status 404, code "object_not_found"`), a value
that carries no list of confirmed-deleted block IDs, even though the deletion
of `b1` had already been confirmed (it is in the performed-mutation trace). -/
theorem c9_counterexample :
    replaceBlockRange partialDeleteArgs =
      (.error remoteDeleteError, [.delete "b1", .delete "b2"]) := rfl

/-- C9 (amended): when a range replacement's insertion phase has succeeded
and the remote then rejects the deletion of one planned block after
confirming the earlier ones, `replaceBlockRange` surfaces the raw remote
error unchanged — no confirmed-deleted ID list is attached to it — and the
remote calls performed are the insertion appends followed by the planned
deletions up to and including the failing one. -/
theorem c9_amended_raw_delete_error_propagates
    (args : ReplaceArgs) (flattened : FlatState)
    (startBlock endBlock : FlatBlock) (ms me : List FlatBlock)
    (insertedCount : Nat) (insertedIds : List String) (insTrace : List RemoteMutation)
    (pre rest : List String) (badId : String) (e : MutErr)
    (hdry : args.dryRun = false)
    (hfl : flattenScopeBlocks args.planWorld args.scopeId args.maxBlocks = .ok flattened)
    (hs : resolveSelectorStrict flattened.blocks args.startSelector "start-selector-json" =
      .ok (startBlock, ms))
    (he : resolveSelectorStrict flattened.blocks args.endSelector "end-selector-json" =
      .ok (endBlock, me))
    (hpar : startBlock.parent_id = endBlock.parent_id)
    (hord : ¬ startBlock.sibling_index > endBlock.sibling_index)
    (hfp : siblingsFingerprint
        ((List.lookup startBlock.parent_id flattened.siblingsByParent).getD []) =
      siblingsFingerprint (currentSiblingsOf startBlock.parent_id
        (args.remote.execChildren startBlock.parent_id)))
    (hins : (if args.blocks.length > 0 then
        insertBlocksExec args.remote startBlock.parent_id args.blocks
          (insertPositionOf args.inclusiveStart
            ((List.lookup startBlock.parent_id flattened.siblingsByParent).getD [])
            startBlock)
      else (.ok (0, []), [])) = (.ok (insertedCount, insertedIds), insTrace))
    (hdel : (blocksToDeleteOf args.inclusiveStart args.inclusiveEnd
        ((List.lookup startBlock.parent_id flattened.siblingsByParent).getD [])
        startBlock endBlock).map (·.id) = pre ++ badId :: rest)
    (hpre : ∀ b ∈ pre, args.remote.deleteResult b = none)
    (hbad : args.remote.deleteResult badId = some e) :
    replaceBlockRange args =
      (.error e, insTrace ++ pre.map RemoteMutation.delete ++ [.delete badId]) := by
  simp only [replaceBlockRange, hfl, hs, he]
  rw [if_neg (by simp [hpar]), if_neg hord]
  simp only [hdry, Bool.false_eq_true, if_false]
  rw [if_neg (by simp [hfp])]
  rw [hins, hdel, deleteLoop_partial_failure args.remote pre badId rest e hpre hbad]
  simp

/-- Witness for the amended C9: one replacement block inserted (confirmed as
`n1`), three planned deletions, the third rejected by the remote: the caller
receives the raw remote error, after the append and the two confirmed
deletions hit the remote. -/
theorem c9_amended_raw_delete_error_propagates_witness :
    replaceBlockRange partialDeleteArgsIns =
      (.error remoteDeleteError,
        [.append "scope" [paragraphJson] .start] ++
          List.map RemoteMutation.delete ["c1", "c2"] ++ [.delete "c3"]) :=
  c9_amended_raw_delete_error_propagates partialDeleteArgsIns
    ⟨[⟨"c1", "scope", some "paragraph", "one", false, none, 0, 0⟩,
      ⟨"c2", "scope", some "paragraph", "two", false, none, 1, 1⟩,
      ⟨"c3", "scope", some "paragraph", "three", false, none, 2, 2⟩],
     [("scope",
       [⟨"c1", "scope", some "paragraph", "one", false, none, 0, 0⟩,
        ⟨"c2", "scope", some "paragraph", "two", false, none, 1, 1⟩,
        ⟨"c3", "scope", some "paragraph", "three", false, none, 2, 2⟩])]⟩
    ⟨"c1", "scope", some "paragraph", "one", false, none, 0, 0⟩
    ⟨"c3", "scope", some "paragraph", "three", false, none, 2, 2⟩
    [⟨"c1", "scope", some "paragraph", "one", false, none, 0, 0⟩,
     ⟨"c2", "scope", some "paragraph", "two", false, none, 1, 1⟩,
     ⟨"c3", "scope", some "paragraph", "three", false, none, 2, 2⟩]
    [⟨"c1", "scope", some "paragraph", "one", false, none, 0, 0⟩,
     ⟨"c2", "scope", some "paragraph", "two", false, none, 1, 1⟩,
     ⟨"c3", "scope", some "paragraph", "three", false, none, 2, 2⟩]
    1 ["n1"] [.append "scope" [paragraphJson] .start]
    ["c1", "c2"] [] "c3" remoteDeleteError
    rfl rfl rfl rfl rfl (by decide) rfl rfl rfl
    (by
      intro b hb
      simp only [List.mem_cons, List.not_mem_nil, or_false] at hb
      rcases hb with h | h <;> subst h <;> rfl)
    rfl

/-! ## Claim C8 -/

/-- The sibling-push loop appends exactly the valid children: ids and
has_children flags follow the kept raw children in order, the assigned
`order_index`es continue the accumulator's positions, each sibling carries
`parentId`, and its `sibling_index` is the enumeration index of its raw
entry in the parent's child listing. -/
theorem pushSiblings_spec (maxBlocks : Nat) (parentId : String) (raws : List RawBlock) :
    ∀ (idx : Nat) (blocks blocks' siblings : List FlatBlock),
      pushSiblings maxBlocks parentId raws idx blocks = .ok (blocks', siblings) →
      blocks' = blocks ++ siblings ∧
      siblings.map (·.id) = (raws.filter (fun x => x.id ≠ "")).map (·.id) ∧
      siblings.map (·.has_children) =
        (raws.filter (fun x => x.id ≠ "")).map (·.has_children) ∧
      siblings.map (·.order_index) = List.range' blocks.length siblings.length ∧
      siblings.map (fun b => (b.id, b.sibling_index)) = rawSiblingIndexesFrom idx raws ∧
      (∀ b ∈ siblings, b.parent_id = parentId) := by
  induction raws with
  | nil =>
    intro idx blocks blocks' siblings h
    simp only [pushSiblings, Except.ok.injEq, Prod.mk.injEq] at h
    obtain ⟨h1, h2⟩ := h
    subst h1
    subst h2
    simp [List.range', rawSiblingIndexesFrom]
  | cons raw rest ih =>
    intro idx blocks blocks' siblings h
    by_cases hid : raw.id = ""
    · rw [pushSiblings, if_pos hid] at h
      rw [List.filter_cons_of_neg (by simp [hid]), rawSiblingIndexesFrom, if_pos hid]
      exact ih (idx + 1) blocks blocks' siblings h
    · rw [pushSiblings, if_neg hid] at h
      by_cases hmax : blocks.length ≥ maxBlocks
      · rw [if_pos hmax] at h
        exact absurd h (by simp)
      · rw [if_neg hmax] at h
        simp only at h
        cases hrec : pushSiblings maxBlocks parentId rest (idx + 1)
            (blocks ++ [⟨raw.id, parentId, raw.type, raw.text, raw.has_children,
              raw.last_edited_time, idx, blocks.length⟩]) with
        | error e =>
          rw [hrec] at h
          exact absurd h (by simp)
        | ok pr =>
          obtain ⟨blocks2, sibs2⟩ := pr
          rw [hrec] at h
          simp only [Except.ok.injEq, Prod.mk.injEq] at h
          obtain ⟨hb, hs⟩ := h
          subst hb
          subst hs
          obtain ⟨ih1, ih2, ih3, ih4, ih5, ih6⟩ := ih (idx + 1) _ blocks2 sibs2 hrec
          refine ⟨by simp [ih1], ?_, ?_, ?_, ?_, ?_⟩
          · rw [List.filter_cons_of_pos (by simp [hid])]
            simp [ih2]
          · rw [List.filter_cons_of_pos (by simp [hid])]
            simp [ih3]
          · simp only [List.map_cons, ih4]
            simp [List.range']
          · rw [rawSiblingIndexesFrom, if_neg hid]
            simp [ih5]
          · intro b hb
            rcases List.mem_cons.mp hb with heq | hmem
            · rw [heq]
            · exact ih6 b hmem

/-- `descendWith` only consults a sibling's `id` and `has_children`, so the
flat-level and raw-level descent emissions agree. -/
theorem flatsDescendIds_eq_raws (sub : String → List String) :
    ∀ (siblings : List FlatBlock) (kept : List RawBlock),
      siblings.map (·.id) = kept.map (·.id) →
      siblings.map (·.has_children) = kept.map (·.has_children) →
      flatsDescendIds sub siblings = rawsDescendIdsWith sub kept := by
  intro siblings
  induction siblings with
  | nil =>
    intro kept hid _
    have : kept = [] := by
      cases kept with
      | nil => rfl
      | cons k l => simp at hid
    subst this
    rfl
  | cons s rest ih =>
    intro kept hid hhc
    cases kept with
    | nil => simp at hid
    | cons k l =>
      simp only [List.map_cons, List.cons.injEq] at hid hhc
      rw [flatsDescendIds, rawsDescendIdsWith, hid.1, hhc.1, ih l hid.2 hhc.2]

/-- The per-position order invariant of the flattened accumulator. -/
def OrderInv (bs : List FlatBlock) : Prop :=
  bs.map (·.order_index) = List.range' 0 bs.length

theorem orderInv_append (blocks siblings : List FlatBlock)
    (h1 : OrderInv blocks)
    (h2 : siblings.map (·.order_index) = List.range' blocks.length siblings.length) :
    OrderInv (blocks ++ siblings) := by
  rw [OrderInv, List.map_append, h1, h2, List.length_append]
  have := List.range'_append 0 blocks.length siblings.length 1
  simpa [Nat.add_comm] using this

/-- The sibling-index invariant of the walk state: every flattened block's
`sibling_index` is an enumeration index of its id in its parent's raw child
listing, and every recorded per-parent sibling group projects exactly onto
that parent's `(id, index)` listing. -/
def SibIndexInv (world : String → List RawBlock) (st : FlatState) : Prop :=
  (∀ b ∈ st.blocks, (b.id, b.sibling_index) ∈ rawSiblingIndexes (world b.parent_id)) ∧
  (∀ (p : String) (sibs : List FlatBlock), (p, sibs) ∈ st.siblingsByParent →
    sibs.map (fun b => (b.id, b.sibling_index)) = rawSiblingIndexes (world p))

theorem sibIndexInv_update (world : String → List RawBlock) (pid : String)
    (st : FlatState) (blocks' siblings : List FlatBlock)
    (hb : blocks' = st.blocks ++ siblings)
    (hpairs : siblings.map (fun b => (b.id, b.sibling_index)) =
      rawSiblingIndexes (world pid))
    (hpar : ∀ b ∈ siblings, b.parent_id = pid)
    (hinv : SibIndexInv world st) :
    SibIndexInv world ⟨blocks', setSiblings st.siblingsByParent pid siblings⟩ := by
  constructor
  · intro b hbmem
    simp only at hbmem
    rw [hb] at hbmem
    rcases List.mem_append.mp hbmem with hmem | hmem
    · exact hinv.1 b hmem
    · rw [hpar b hmem, ← hpairs]
      exact List.mem_map_of_mem _ hmem
  · intro p sibs hmem
    simp only [setSiblings] at hmem
    rcases List.mem_cons.mp hmem with heq | hmem2
    · obtain ⟨hp, hs⟩ := Prod.mk.injEq .. ▸ heq
      rw [hs, hp]
      exact hpairs
    · exact hinv.2 p sibs (List.mem_of_mem_filter hmem2)

/-- Specification of the descent loop, given the specification of the walk at
the current fuel. -/
theorem descendWith_spec (world : String → List RawBlock) (maxBlocks fuel : Nat)
    (Wih : ∀ (pid : String) (st st' : FlatState),
      walkChildren world maxBlocks fuel pid st = .ok st' →
      (st'.blocks.map (·.id) =
        st.blocks.map (·.id) ++ siblingBatchIds world fuel pid) ∧
      (OrderInv st.blocks → OrderInv st'.blocks) ∧
      (SibIndexInv world st → SibIndexInv world st')) :
    ∀ (siblings : List FlatBlock) (st st' : FlatState),
      descendWith (walkChildren world maxBlocks fuel) siblings st = .ok st' →
      (st'.blocks.map (·.id) =
        st.blocks.map (·.id) ++ flatsDescendIds (siblingBatchIds world fuel) siblings) ∧
      (OrderInv st.blocks → OrderInv st'.blocks) ∧
      (SibIndexInv world st → SibIndexInv world st') := by
  intro siblings
  induction siblings with
  | nil =>
    intro st st' h
    simp only [descendWith, Except.ok.injEq] at h
    subst h
    simp [flatsDescendIds]
  | cons s rest ih =>
    intro st st' h
    by_cases hc : s.has_children = true
    · rw [descendWith, if_pos hc] at h
      cases hw : walkChildren world maxBlocks fuel s.id st with
      | error e =>
        rw [hw] at h
        exact absurd h (by simp)
      | ok st1 =>
        rw [hw] at h
        obtain ⟨w1, w2, w3⟩ := Wih s.id st st1 hw
        obtain ⟨d1, d2, d3⟩ := ih st1 st' h
        refine ⟨?_, ?_, ?_⟩
        · rw [d1, w1, flatsDescendIds, if_pos hc, List.append_assoc]
        · exact fun hinv => d2 (w2 hinv)
        · exact fun hinv => d3 (w3 hinv)
    · rw [descendWith, if_neg hc] at h
      obtain ⟨d1, d2, d3⟩ := ih st st' h
      refine ⟨?_, d2, d3⟩
      rw [d1, flatsDescendIds, if_neg hc]
      simp

/-- Specification of the fueled walk: on success the emitted ids follow the
sibling-batch order, the order indexes stay positional, and the
sibling-index invariant is preserved. -/
theorem walkChildren_spec (world : String → List RawBlock) (maxBlocks : Nat) :
    ∀ (fuel : Nat) (pid : String) (st st' : FlatState),
      walkChildren world maxBlocks fuel pid st = .ok st' →
      (st'.blocks.map (·.id) =
        st.blocks.map (·.id) ++ siblingBatchIds world fuel pid) ∧
      (OrderInv st.blocks → OrderInv st'.blocks) ∧
      (SibIndexInv world st → SibIndexInv world st') := by
  intro fuel
  induction fuel with
  | zero =>
    intro pid st st' h
    exact absurd h (by simp [walkChildren])
  | succ fuel ih =>
    intro pid st st' h
    rw [walkChildren, walkStep] at h
    cases hp : pushSiblings maxBlocks pid (world pid) 0 st.blocks with
    | error e =>
      rw [hp] at h
      exact absurd h (by simp)
    | ok pr =>
      obtain ⟨blocks', siblings⟩ := pr
      rw [hp] at h
      obtain ⟨p1, p2, p3, p4, p5, p6⟩ := pushSiblings_spec maxBlocks pid (world pid) 0
        st.blocks blocks' siblings hp
      obtain ⟨d1, d2, d3⟩ := descendWith_spec world maxBlocks fuel ih siblings
        ⟨blocks', setSiblings st.siblingsByParent pid siblings⟩ st' h
      refine ⟨?_, ?_, ?_⟩
      · rw [d1]
        simp only [p1, List.map_append]
        rw [flatsDescendIds_eq_raws (siblingBatchIds world fuel) siblings
          ((world pid).filter (fun x => x.id ≠ "")) p2 p3, p2]
        rw [siblingBatchIds]
        simp only [List.append_assoc]
      · intro hinv
        apply d2
        simp only [p1]
        exact orderInv_append st.blocks siblings hinv p4
      · intro hinv
        exact d3 (sibIndexInv_update world pid st blocks' siblings p1 p5 p6 hinv)

/-- C8 counterexample: for the scope whose children are `A` (with child `X`)
and `B`, the flattener emits `[A, B, X]` — all direct children of the scope
before `A`'s subtree — whereas the claimed depth-first pre-order (every block
immediately followed by its own subtree) is `[A, X, B]`. -/
theorem c8_counterexample :
    flatIdsOf (flattenScopeBlocks nestedWorld "scope" 10) = some ["A", "B", "X"] ∧
    preorderIds nestedWorld 11 "scope" = ["A", "X", "B"] ∧
    flatIdsOf (flattenScopeBlocks nestedWorld "scope" 10) ≠
      some (preorderIds nestedWorld 11 "scope") :=
  ⟨rfl, rfl, by decide⟩

/-- C8 (amended): for every successful flatten, `order_index` is the block's
position in the flattened output list, and that list's ids follow the
sibling-batch traversal (`siblingBatchIds`): all direct children of a parent
appear consecutively, followed by the descents into each child's subtree in
sibling order — not depth-first pre-order.  `sibling_index` is the block's
enumeration index in its parent's raw child listing: every flattened block's
`(id, sibling_index)` pair occurs in its parent's listing, and each recorded
per-parent sibling group projects exactly onto that listing. -/
theorem c8_amended_sibling_batch_order
    (world : String → List RawBlock) (scopeId : String) (maxBlocks : Nat) (st : FlatState)
    (hok : flattenScopeBlocks world scopeId maxBlocks = .ok st) :
    st.blocks.map (·.id) = siblingBatchIds world (maxBlocks + 1) scopeId ∧
    st.blocks.map (·.order_index) = List.range st.blocks.length ∧
    (∀ b ∈ st.blocks, (b.id, b.sibling_index) ∈ rawSiblingIndexes (world b.parent_id)) ∧
    (∀ (p : String) (sibs : List FlatBlock), (p, sibs) ∈ st.siblingsByParent →
      sibs.map (fun b => (b.id, b.sibling_index)) = rawSiblingIndexes (world p)) := by
  obtain ⟨h1, h2, h3⟩ := walkChildren_spec world maxBlocks (maxBlocks + 1) scopeId
    ⟨[], []⟩ st hok
  have hsii : SibIndexInv world st := by
    apply h3
    constructor
    · intro b hb
      simp at hb
    · intro p sibs hmem
      simp at hmem
  refine ⟨by simpa using h1, ?_, hsii.1, hsii.2⟩
  have hinv : OrderInv st.blocks := h2 (by simp [OrderInv, List.range'])
  rw [OrderInv] at hinv
  rw [hinv, List.range_eq_range']

/-- Witness for the amended C8 on the nested two-level scope: the flattened
ids/order indexes, the `(id, sibling_index)` pair of the nested block `X` in
its parent `A`'s listing, and the scope's recorded sibling group projecting
onto the scope's listing. -/
theorem c8_amended_sibling_batch_order_witness :
    (⟨[⟨"A", "scope", some "paragraph", "", true, none, 0, 0⟩,
       ⟨"B", "scope", some "paragraph", "", false, none, 1, 1⟩,
       ⟨"X", "A", some "paragraph", "", false, none, 0, 2⟩],
      [("A", [⟨"X", "A", some "paragraph", "", false, none, 0, 2⟩]),
       ("scope",
        [⟨"A", "scope", some "paragraph", "", true, none, 0, 0⟩,
         ⟨"B", "scope", some "paragraph", "", false, none, 1, 1⟩])]⟩ :
        FlatState).blocks.map (·.id) = siblingBatchIds nestedWorld 11 "scope" ∧
    (⟨[⟨"A", "scope", some "paragraph", "", true, none, 0, 0⟩,
       ⟨"B", "scope", some "paragraph", "", false, none, 1, 1⟩,
       ⟨"X", "A", some "paragraph", "", false, none, 0, 2⟩],
      [("A", [⟨"X", "A", some "paragraph", "", false, none, 0, 2⟩]),
       ("scope",
        [⟨"A", "scope", some "paragraph", "", true, none, 0, 0⟩,
         ⟨"B", "scope", some "paragraph", "", false, none, 1, 1⟩])]⟩ :
        FlatState).blocks.map (·.order_index) =
      List.range
        (⟨[⟨"A", "scope", some "paragraph", "", true, none, 0, 0⟩,
           ⟨"B", "scope", some "paragraph", "", false, none, 1, 1⟩,
           ⟨"X", "A", some "paragraph", "", false, none, 0, 2⟩],
          [("A", [⟨"X", "A", some "paragraph", "", false, none, 0, 2⟩]),
           ("scope",
            [⟨"A", "scope", some "paragraph", "", true, none, 0, 0⟩,
             ⟨"B", "scope", some "paragraph", "", false, none, 1, 1⟩])]⟩ :
            FlatState).blocks.length ∧
    ("X", 0) ∈ rawSiblingIndexes (nestedWorld "A") ∧
    List.map (fun b => (b.id, b.sibling_index))
        [(⟨"A", "scope", some "paragraph", "", true, none, 0, 0⟩ : FlatBlock),
         ⟨"B", "scope", some "paragraph", "", false, none, 1, 1⟩] =
      rawSiblingIndexes (nestedWorld "scope") :=
  ⟨(c8_amended_sibling_batch_order nestedWorld "scope" 10
      ⟨[⟨"A", "scope", some "paragraph", "", true, none, 0, 0⟩,
        ⟨"B", "scope", some "paragraph", "", false, none, 1, 1⟩,
        ⟨"X", "A", some "paragraph", "", false, none, 0, 2⟩],
       [("A", [⟨"X", "A", some "paragraph", "", false, none, 0, 2⟩]),
        ("scope",
         [⟨"A", "scope", some "paragraph", "", true, none, 0, 0⟩,
          ⟨"B", "scope", some "paragraph", "", false, none, 1, 1⟩])]⟩ rfl).1,
   (c8_amended_sibling_batch_order nestedWorld "scope" 10
      ⟨[⟨"A", "scope", some "paragraph", "", true, none, 0, 0⟩,
        ⟨"B", "scope", some "paragraph", "", false, none, 1, 1⟩,
        ⟨"X", "A", some "paragraph", "", false, none, 0, 2⟩],
       [("A", [⟨"X", "A", some "paragraph", "", false, none, 0, 2⟩]),
        ("scope",
         [⟨"A", "scope", some "paragraph", "", true, none, 0, 0⟩,
          ⟨"B", "scope", some "paragraph", "", false, none, 1, 1⟩])]⟩ rfl).2.1,
   (c8_amended_sibling_batch_order nestedWorld "scope" 10
      ⟨[⟨"A", "scope", some "paragraph", "", true, none, 0, 0⟩,
        ⟨"B", "scope", some "paragraph", "", false, none, 1, 1⟩,
        ⟨"X", "A", some "paragraph", "", false, none, 0, 2⟩],
       [("A", [⟨"X", "A", some "paragraph", "", false, none, 0, 2⟩]),
        ("scope",
         [⟨"A", "scope", some "paragraph", "", true, none, 0, 0⟩,
          ⟨"B", "scope", some "paragraph", "", false, none, 1, 1⟩])]⟩ rfl).2.2.1
     ⟨"X", "A", some "paragraph", "", false, none, 0, 2⟩ (by simp),
   (c8_amended_sibling_batch_order nestedWorld "scope" 10
      ⟨[⟨"A", "scope", some "paragraph", "", true, none, 0, 0⟩,
        ⟨"B", "scope", some "paragraph", "", false, none, 1, 1⟩,
        ⟨"X", "A", some "paragraph", "", false, none, 0, 2⟩],
       [("A", [⟨"X", "A", some "paragraph", "", false, none, 0, 2⟩]),
        ("scope",
         [⟨"A", "scope", some "paragraph", "", true, none, 0, 0⟩,
          ⟨"B", "scope", some "paragraph", "", false, none, 1, 1⟩])]⟩ rfl).2.2.2 "scope"
     [⟨"A", "scope", some "paragraph", "", true, none, 0, 0⟩,
      ⟨"B", "scope", some "paragraph", "", false, none, 1, 1⟩] (by simp)⟩

end NotionCli
